import Mathlib

/-!
Shallow embedding of the chess rules engine (board, move geometry, FEN codec,
game orchestrator) of this repository, together with theorems settling the
specification claims.  Python dictionaries are modelled as insertion-ordered
association lists, Python exceptions as an error type threaded through
`Except`, and Python strings as `List Char`.
-/

namespace Chess

/-- The exception kinds raised by the code: the dedicated exception classes of
the domain layer plus the builtin Python exceptions its code can raise.
`Diverges` models Python non-termination of an unbounded `while` loop (it is
produced only when a fuel bound is exhausted, which cannot happen for the
direction vectors this codebase passes). -/
inductive PyErr where
  | KeyError
  | ValueError
  | IndexError
  | StopIteration
  | AssertionError
  | GameCreationError
  | GameStateError
  | IllegalMoveError
  | NotYourTurnError
  | InvalidFENError
  | Diverges
  deriving DecidableEq

/-- First part of Python `str.split(sep)` semantics: always at least one chunk,
empty chunks kept. -/
def splitOn (sep : Char) (cs : List Char) : List (List Char) :=
  cs.foldr
    (fun c acc =>
      if c = sep then [] :: acc
      else
        match acc with
        | a :: as => (c :: a) :: as
        | [] => [[c]])
    [[]]

/-- `"sep".join(chunks)`. -/
def joinOn (sep : Char) : List (List Char) → List Char
  | [] => []
  | [x] => x
  | x :: y :: rest => x ++ sep :: joinOn sep (y :: rest)

/-- ASCII decimal digits, the value table behind `int(c)` on a single digit
character. -/
def digitVal (c : Char) : Nat :=
  match c with
  | '0' => 0 | '1' => 1 | '2' => 2 | '3' => 3 | '4' => 4
  | '5' => 5 | '6' => 6 | '7' => 7 | '8' => 8 | '9' => 9
  | _ => 0

/-- ASCII decimal digit characters, the table behind `str(d)` for `d < 10`. -/
def digitChar (n : Nat) : Char :=
  match n with
  | 0 => '0' | 1 => '1' | 2 => '2' | 3 => '3' | 4 => '4'
  | 5 => '5' | 6 => '6' | 7 => '7' | 8 => '8' | 9 => '9'
  | _ => '*'

/-- Membership in the ASCII digits; the check behind Python `str.isdigit` for
the characters this codebase handles. -/
def isDigitChar (c : Char) : Bool :=
  decide (c ∈ ['0', '1', '2', '3', '4', '5', '6', '7', '8', '9'])

/-- `int(cs)` on a string of decimal digits. -/
def parseNat (cs : List Char) : Nat :=
  cs.foldl (fun a c => a * 10 + digitVal c) 0

/-- `int(cs)`: the conversions this codebase performs are on all-digit strings;
anything else raises `ValueError`. -/
def pyInt (cs : List Char) : Except PyErr Nat :=
  if cs ≠ [] ∧ cs.all isDigitChar then .ok (parseNat cs) else .error .ValueError

/-- Fuel-driven core of `str(n)`: peel decimal digits from the right. -/
def natToCharsCore : Nat → Nat → List Char → List Char
  | 0, _, acc => acc
  | fuel + 1, n, acc =>
      if n < 10 then digitChar n :: acc
      else natToCharsCore fuel (n / 10) (digitChar (n % 10) :: acc)

/-- `str(n)` for a natural number. -/
def natToChars (n : Nat) : List Char :=
  natToCharsCore (n + 1) n []

end Chess

namespace Chess

-- ### src/chess/square.py

/-- Chess board is always 8x8 (`BOARD_DIMENSIONS`). -/
def BOARD_DIMENSIONS : Int × Int := (8, 8)

/-- A square on the board: `(file, rank)`.  Python's ints are unbounded and
the movement code freely forms out-of-bounds squares before testing them, so
the components are `Int`. -/
structure Square where
  file : Int
  rank : Int
  deriving DecidableEq

/-- `Square.from_algebraic`: `'a1'`-`'h8'` become `(1,1)`-`(8,8)`.  The source
indexes `sq[0]` and `sq[1]` (raising `IndexError` when too short) and applies
`int` to the single character `sq[1]` (raising `ValueError` when not a
digit). -/
def Square.from_algebraic (sq : List Char) : Except PyErr Square :=
  match sq with
  | f :: r :: _ =>
      if isDigitChar r then
        .ok ⟨(f.toNat : Int) - 97 + 1, (digitVal r : Int)⟩
      else .error .ValueError
  | _ => .error .IndexError

/-- `Square.to_algebraic`: `chr(file + ord('a') - 1)` followed by
`str(rank)`.  Total; the game only prints squares whose file is in bounds and
whose rank is non-negative, where this agrees with the source. -/
def Square.to_algebraic (s : Square) : List Char :=
  Char.ofNat (s.file.toNat + 97 - 1) :: natToChars s.rank.toNat

/-- `Square.is_within_bounds`. -/
def Square.is_within_bounds (s : Square) : Bool :=
  decide (1 ≤ s.file ∧ s.file ≤ BOARD_DIMENSIONS.1
    ∧ 1 ≤ s.rank ∧ s.rank ≤ BOARD_DIMENSIONS.2)

-- ### src/chess/pieces.py

inductive PieceType where
  | EMPTY | PAWN | KNIGHT | BISHOP | ROOK | QUEEN | KING
  deriving DecidableEq

inductive Color where
  | NONE | WHITE | BLACK
  deriving DecidableEq

/-- A piece is a `(type, color)` pair.  The derived `points` field of the
source dataclass is a function of `type` alone and no claim depends on it, so
it is not stored. -/
structure Piece where
  type : PieceType
  color : Color
  deriving DecidableEq

/-- `FEN_TO_PIECE` dictionary lookup. -/
def FEN_TO_PIECE (c : Char) : Option PieceType :=
  match c with
  | 'p' => some .PAWN
  | 'n' => some .KNIGHT
  | 'b' => some .BISHOP
  | 'r' => some .ROOK
  | 'q' => some .QUEEN
  | 'k' => some .KING
  | _ => none

/-- `PIECE_TO_FEN` dictionary lookup (inverse table; `EMPTY` has no entry). -/
def PIECE_TO_FEN (t : PieceType) : Option Char :=
  match t with
  | .PAWN => some 'p'
  | .KNIGHT => some 'n'
  | .BISHOP => some 'b'
  | .ROOK => some 'r'
  | .QUEEN => some 'q'
  | .KING => some 'k'
  | .EMPTY => none

/-- `Piece.from_fen`: upper case means white; the type table lookup can raise
`KeyError` for a non-piece letter. -/
def Piece.from_fen (c : Char) : Except PyErr Piece :=
  match FEN_TO_PIECE c.toLower with
  | some t => .ok ⟨t, if c.isUpper then .WHITE else .BLACK⟩
  | none => .error .KeyError

/-- `Piece.to_fen`: table lookup then case adjustment. -/
def Piece.to_fen (p : Piece) : Except PyErr Char :=
  match PIECE_TO_FEN p.type with
  | some c => .ok (if p.color = Color.WHITE then c.toUpper else c)
  | none => .error .KeyError

/-- `Color.name.lower()`. -/
def Color.nameLower (c : Color) : List Char :=
  match c with
  | .NONE => "none".toList
  | .WHITE => "white".toList
  | .BLACK => "black".toList

/-- Modelled from the spec: `AVAILABLE_COLOR_NAMES`, imported by the game
module from the pieces module but absent from the source tree.  Per the spec
the two canonical side names are "white" and "black" (upper-cased member
names), the "none" marker never being a registrable side. -/
def AVAILABLE_COLOR_NAMES : List (List Char) :=
  ["WHITE".toList, "BLACK".toList]

end Chess

namespace Chess

-- ### src/chess/castling.py

/-- The four castling directions; the FEN letters are their `value`s. -/
inductive CastlingDirection where
  | WHITE_KING_SIDE | WHITE_QUEEN_SIDE | BLACK_KING_SIDE | BLACK_QUEEN_SIDE
  deriving DecidableEq

/-- `CastlingDirection.value`: the FEN encoding letter. -/
def CastlingDirection.value (d : CastlingDirection) : Char :=
  match d with
  | .WHITE_KING_SIDE => 'K'
  | .WHITE_QUEEN_SIDE => 'Q'
  | .BLACK_KING_SIDE => 'k'
  | .BLACK_QUEEN_SIDE => 'q'

/-- `CastlingDirection.name.lower()`. -/
def CastlingDirection.nameLower (d : CastlingDirection) : List Char :=
  match d with
  | .WHITE_KING_SIDE => "white_king_side".toList
  | .WHITE_QUEEN_SIDE => "white_queen_side".toList
  | .BLACK_KING_SIDE => "black_king_side".toList
  | .BLACK_QUEEN_SIDE => "black_queen_side".toList

/-- Iteration order of the `CastlingDirection` enum. -/
def castlingDirections : List CastlingDirection :=
  [.WHITE_KING_SIDE, .WHITE_QUEEN_SIDE, .BLACK_KING_SIDE, .BLACK_QUEEN_SIDE]

/-- `CastlingSquares`: where king and rook start from / end up when castling. -/
structure CastlingSquares where
  king_from : Square
  king_to : Square
  rook_from : Square
  rook_to : Square
  deriving DecidableEq

/-- `CASTLING_RULES`: the canonical king/rook square quadruples (the algebraic
constants "e1","g1","h1","f1", etc., of the source, already converted). -/
def CASTLING_RULES (d : CastlingDirection) : CastlingSquares :=
  match d with
  | .WHITE_KING_SIDE => ⟨⟨5, 1⟩, ⟨7, 1⟩, ⟨8, 1⟩, ⟨6, 1⟩⟩
  | .WHITE_QUEEN_SIDE => ⟨⟨5, 1⟩, ⟨3, 1⟩, ⟨1, 1⟩, ⟨4, 1⟩⟩
  | .BLACK_KING_SIDE => ⟨⟨5, 8⟩, ⟨7, 8⟩, ⟨8, 8⟩, ⟨6, 8⟩⟩
  | .BLACK_QUEEN_SIDE => ⟨⟨5, 8⟩, ⟨3, 8⟩, ⟨1, 8⟩, ⟨4, 8⟩⟩

-- ### src/chess/moves.py : the Move record

/-- `Move`: from/to squares, optional promotion kind, optional castling tag,
en-passant flag. -/
structure Move where
  from_square : Square
  to_square : Square
  promote_to : Option PieceType := none
  castling_direction : Option CastlingDirection := none
  is_en_passant : Bool := false
  deriving DecidableEq

/-- `Move.from_uci`: parse `<from><to>[promotion]`; castling / en-passant tags
are set later by the Game. -/
def Move.from_uci (uci : List Char) : Except PyErr Move :=
  match Square.from_algebraic (uci.take 2) with
  | .error e => .error e
  | .ok f =>
    match Square.from_algebraic (uci.drop 2 |>.take 2) with
    | .error e => .error e
    | .ok t =>
      if uci.length = 5 then
        match uci.getLast? with
        | some c =>
          match FEN_TO_PIECE c with
          | some pt => .ok ⟨f, t, some pt, none, false⟩
          | none => .error .KeyError
        | none => .error .IndexError
      else .ok ⟨f, t, none, none, false⟩

/-- `Move.to_uci`: the `PIECE_TO_FEN` lookup raises `KeyError` when
`promote_to` is the `EMPTY` marker. -/
def Move.to_uci (m : Move) : Except PyErr (List Char) :=
  match m.promote_to with
  | none => .ok (m.from_square.to_algebraic ++ m.to_square.to_algebraic)
  | some pt =>
    match PIECE_TO_FEN pt with
    | some c => .ok (m.from_square.to_algebraic ++ m.to_square.to_algebraic ++ [c])
    | none => .error .KeyError

-- ### src/chess/board.py : the Board record and its dictionary

/-- The Board owns `position`, a Python dict from squares to pieces, modelled
as an insertion-ordered association list with unique keys. -/
structure Board where
  position : List (Square × Piece)
  deriving DecidableEq

/-- Python dict read (`m[k]` success case). -/
def dictGet? : List (Square × Piece) → Square → Option Piece
  | [], _ => none
  | (k', v) :: rest, k => if k' = k then some v else dictGet? rest k

/-- Python dict write `m[k] = v`: replaces in place when the key exists,
appends at the end otherwise (insertion order is preserved). -/
def dictSet (m : List (Square × Piece)) (k : Square) (v : Piece) :
    List (Square × Piece) :=
  if (dictGet? m k).isSome then
    m.map (fun kv => if kv.1 = k then (k, v) else kv)
  else m ++ [(k, v)]

/-- Left-to-right evaluation of a list of fallible computations (a Python list
comprehension or loop over calls each of which can raise). -/
def exList {α : Type} : List (Except PyErr α) → Except PyErr (List α)
  | [] => .ok []
  | x :: rest =>
    match x with
    | .error e => .error e
    | .ok v =>
      match exList rest with
      | .error e => .error e
      | .ok vs => .ok (v :: vs)

/-- The inner `for _ in range(n)` of `Board.from_fen`: place `n` consecutive
empty squares starting at `file`. -/
def placeEmptyRun (pos : List (Square × Piece)) (file rank : Int) :
    Nat → List (Square × Piece)
  | 0 => pos
  | n + 1 =>
      placeEmptyRun (dictSet pos ⟨file, rank⟩ ⟨.EMPTY, .NONE⟩) (file + 1) rank n

/-- One rank of `Board.from_fen`: letters place pieces, digits place runs of
empty squares; `int` on any other character raises `ValueError`. -/
def fromFenRank (pos : List (Square × Piece)) (rank : Int) (file : Int) :
    List Char → Except PyErr (List (Square × Piece))
  | [] => .ok pos
  | c :: rest =>
    if c.isAlpha then
      match Piece.from_fen c with
      | .error e => .error e
      | .ok p => fromFenRank (dictSet pos ⟨file, rank⟩ p) rank (file + 1) rest
    else if isDigitChar c then
      fromFenRank (placeEmptyRun pos file rank (digitVal c)) rank
        (file + (digitVal c : Int)) rest
    else .error .ValueError

/-- The rank loop of `Board.from_fen`: rank number is
`BOARD_DIMENSIONS[1] - rank_idx`, file restarts at 1. -/
def fromFenRanks (pos : List (Square × Piece)) (rankIdx : Nat) :
    List (List Char) → Except PyErr (List (Square × Piece))
  | [] => .ok pos
  | r :: rest =>
    match fromFenRank pos (BOARD_DIMENSIONS.2 - (rankIdx : Int)) 1 r with
    | .error e => .error e
    | .ok pos1 => fromFenRanks pos1 (rankIdx + 1) rest

/-- `Board.from_fen`: build the position dict from the slash-separated
piece-placement field. -/
def Board.from_fen (fen : List Char) : Except PyErr Board :=
  match fromFenRanks [] 0 (splitOn '/' fen) with
  | .error e => .error e
  | .ok pos => .ok ⟨pos⟩

/-- `Board.piece`: dict lookup, `KeyError` when the square is not a key. -/
def Board.piece (b : Board) (s : Square) : Except PyErr Piece :=
  match dictGet? b.position s with
  | some p => .ok p
  | none => .error .KeyError

/-- `Board.locate_pieces`. -/
def Board.locate_pieces (b : Board) (t : PieceType) : List Square :=
  (b.position.filter (fun kv => decide (kv.2.type = t))).map (fun kv => kv.1)

/-- `Board.locate_color`. -/
def Board.locate_color (b : Board) (c : Color) : List Square :=
  (b.position.filter (fun kv => decide (kv.2.color = c))).map (fun kv => kv.1)

/-- `Board.empty_squares`. -/
def Board.empty_squares (b : Board) : List Square :=
  b.locate_pieces .EMPTY

/-- `Board.move_piece`: unconditional relocation, source becomes empty,
destination is overwritten. -/
def Board.move_piece (b : Board) (m : Move) : Except PyErr Board :=
  match b.piece m.from_square with
  | .error e => .error e
  | .ok piece_that_moved =>
    .ok ⟨dictSet (dictSet b.position m.from_square ⟨.EMPTY, .NONE⟩)
      m.to_square piece_that_moved⟩

/-- The file scan of `Board._rank_to_fen`: pieces are emitted after flushing
any pending empty-square run; a trailing run is flushed at the end. -/
def rankToFenGo (b : Board) (rank : Int) :
    List Int → Nat → List Char → Except PyErr (List Char)
  | [], empty_count, acc =>
    .ok (if empty_count > 0 then acc ++ natToChars empty_count else acc)
  | f :: files, empty_count, acc =>
    match b.piece ⟨f, rank⟩ with
    | .error e => .error e
    | .ok p =>
      if p.type ≠ PieceType.EMPTY then
        match p.to_fen with
        | .error e => .error e
        | .ok c =>
          if empty_count > 0 then
            rankToFenGo b rank files 0 (acc ++ natToChars empty_count ++ [c])
          else rankToFenGo b rank files 0 (acc ++ [c])
      else rankToFenGo b rank files (empty_count + 1) acc

/-- `range(1, BOARD_DIMENSIONS[0] + 1)`. -/
def fileRange : List Int := [1, 2, 3, 4, 5, 6, 7, 8]

/-- `range(BOARD_DIMENSIONS[1], 0, -1)`. -/
def rankRangeDesc : List Int := [8, 7, 6, 5, 4, 3, 2, 1]

/-- `Board._rank_to_fen`. -/
def Board.rank_to_fen (b : Board) (rank : Int) : Except PyErr (List Char) :=
  rankToFenGo b rank fileRange 0 []

/-- `Board.to_fen`: the ranks from 8 down to 1, slash-separated. -/
def Board.to_fen (b : Board) : Except PyErr (List Char) :=
  match exList (rankRangeDesc.map (fun r => b.rank_to_fen r)) with
  | .error e => .error e
  | .ok rank_fens => .ok (joinOn '/' rank_fens)

end Chess

namespace Chess

-- ### src/chess/moves.py : movement and attack rules

/-- A direction vector `(delta_file, delta_rank)`. -/
def Vec : Type := Int × Int

/-- The ray walk of `raycasting_move`: step until the board edge or the first
occupied square (a capture is included when it is the opponent's).  The
source's `while True` is driven here by fuel; 32 steps always reach the edge
for a nonzero direction from any square the loop is started on. -/
def rayWalkMove (b : Board) (empties : List Square) (opp : Color)
    (start : Square) (df dr : Int) :
    Nat → Int → Int → List Move → Except PyErr (List Move)
  | 0, _, _, _ => .error .Diverges
  | fuel + 1, file, rank, acc =>
    let file1 := file + df
    let rank1 := rank + dr
    let target : Square := ⟨file1, rank1⟩
    if ¬target.is_within_bounds then .ok acc
    else if ¬(target ∈ empties) then
      match b.piece target with
      | .error e => .error e
      | .ok p =>
        if p.color = opp then .ok (acc ++ [⟨start, target, none, none, false⟩])
        else .ok acc
    else
      rayWalkMove b empties opp start df dr fuel file1 rank1
        (acc ++ [⟨start, target, none, none, false⟩])

/-- The direction loop of `raycasting_move`. -/
def rayDirsMove (b : Board) (empties : List Square) (opp : Color)
    (start : Square) :
    List Vec → List Move → Except PyErr (List Move)
  | [], acc => .ok acc
  | (df, dr) :: dirs, acc =>
    match rayWalkMove b empties opp start df dr 32 start.file start.rank acc with
    | .error e => .error e
    | .ok acc1 => rayDirsMove b empties opp start dirs acc1

/-- `raycasting_move`. -/
def raycasting_move (square : Square) (b : Board) (directions : List Vec) :
    Except PyErr (List Move) :=
  match b.piece square with
  | .error e => .error e
  | .ok p =>
    let opponent : Color := if p.color = Color.BLACK then .WHITE else .BLACK
    rayDirsMove b b.empty_squares opponent square directions []

/-- `single_step_move`: one step along each delta; out-of-bounds targets are
discarded before any board lookup, and a target is available unless it holds a
piece of the mover's color. -/
def single_step_move (square : Square) (b : Board) :
    List Vec → Except PyErr (List Move)
  | [] => .ok []
  | (df, dr) :: deltas =>
    let target : Square := ⟨square.file + df, square.rank + dr⟩
    if ¬target.is_within_bounds then single_step_move square b deltas
    else
      match b.piece square with
      | .error e => .error e
      | .ok mover =>
        match b.piece target with
        | .error e => .error e
        | .ok tp =>
          if tp.color ≠ mover.color then
            match single_step_move square b deltas with
            | .error e => .error e
            | .ok ms => .ok (⟨square, target, none, none, false⟩ :: ms)
          else single_step_move square b deltas

/-- The diagonal-capture loop of `candidate_pawn_moves`.  Faithful to the
source, the board lookup of the target square happens before the bounds
check, so a pawn on the a- or h-file reaches a `KeyError`. -/
def pawnTakesLoop (square : Square) (b : Board) :
    List Vec → Except PyErr (List Move)
  | [] => .ok []
  | (df, dr) :: deltas =>
    let target : Square := ⟨square.file + df, square.rank + dr⟩
    match b.piece square with
    | .error e => .error e
    | .ok mover =>
      let opponent : Color := if mover.color = Color.BLACK then .WHITE else .BLACK
      match b.piece target with
      | .error e => .error e
      | .ok tp =>
        if target.is_within_bounds ∧ tp.color = opponent then
          match pawnTakesLoop square b deltas with
          | .error e => .error e
          | .ok ms => .ok (⟨square, target, none, none, false⟩ :: ms)
        else pawnTakesLoop square b deltas

/-- `candidate_pawn_moves`: the single-square push (two-square initial pushes
are not generated) plus diagonal captures. -/
def candidate_pawn_moves (square : Square) (b : Board) :
    Except PyErr (List Move) :=
  match b.piece square with
  | .error e => .error e
  | .ok mover =>
    let pawn_push : List Vec :=
      if mover.color = Color.WHITE then [(0, 1)] else [(0, -1)]
    match single_step_move square b pawn_push with
    | .error e => .error e
    | .ok pushes =>
      match b.piece square with
      | .error e => .error e
      | .ok mover1 =>
        let pawn_takes : List Vec :=
          if mover1.color = Color.WHITE then [(1, 1), (-1, 1)]
          else [(1, -1), (-1, -1)]
        match pawnTakesLoop square b pawn_takes with
        | .error e => .error e
        | .ok takes => .ok (pushes ++ takes)

/-- `candidate_knight_moves`. -/
def candidate_knight_moves (square : Square) (b : Board) :
    Except PyErr (List Move) :=
  single_step_move square b
    [(2, 1), (2, -1), (-2, 1), (-2, -1), (1, 2), (1, -2), (-1, 2), (-1, -2)]

/-- `candidate_bishop_moves`. -/
def candidate_bishop_moves (square : Square) (b : Board) :
    Except PyErr (List Move) :=
  raycasting_move square b [(1, 1), (-1, 1), (1, -1), (-1, -1)]

/-- `candidate_rook_moves`: horizontal then vertical rays, concatenated. -/
def candidate_rook_moves (square : Square) (b : Board) :
    Except PyErr (List Move) :=
  match raycasting_move square b [(1, 0), (-1, 0)] with
  | .error e => .error e
  | .ok horizontal =>
    match raycasting_move square b [(0, 1), (0, -1)] with
    | .error e => .error e
    | .ok vertical => .ok (horizontal ++ vertical)

/-- `candidate_queen_moves`: bishop moves then rook moves. -/
def candidate_queen_moves (square : Square) (b : Board) :
    Except PyErr (List Move) :=
  match candidate_bishop_moves square b with
  | .error e => .error e
  | .ok diagonal =>
    match candidate_rook_moves square b with
    | .error e => .error e
    | .ok straight => .ok (diagonal ++ straight)

/-- `candidate_king_moves`. -/
def candidate_king_moves (square : Square) (b : Board) :
    Except PyErr (List Move) :=
  single_step_move square b
    [(0, 1), (0, -1), (1, 0), (-1, 0), (1, 1), (1, -1), (-1, 1), (-1, -1)]

/-- `MOVEMENT_RULES` dispatch table; `EMPTY` has no entry (`KeyError`). -/
def MOVEMENT_RULES (t : PieceType) :
    Option (Square → Board → Except PyErr (List Move)) :=
  match t with
  | .PAWN => some candidate_pawn_moves
  | .KNIGHT => some candidate_knight_moves
  | .BISHOP => some candidate_bishop_moves
  | .ROOK => some candidate_rook_moves
  | .QUEEN => some candidate_queen_moves
  | .KING => some candidate_king_moves
  | .EMPTY => none

/-- The ray walk of `raycasting_attack`: walk until the edge or the first
occupied square, reporting whether that square holds a piece of the given
color and type. -/
def rayWalkAttack (b : Board) (empties : List Square) (byColor : Color)
    (byType : PieceType) (df dr : Int) :
    Nat → Int → Int → Except PyErr Bool
  | 0, _, _ => .error .Diverges
  | fuel + 1, file, rank =>
    let file1 := file + df
    let rank1 := rank + dr
    let target : Square := ⟨file1, rank1⟩
    if ¬target.is_within_bounds then .ok false
    else if ¬(target ∈ empties) then
      match b.piece target with
      | .error e => .error e
      | .ok p => .ok (decide (p.color = byColor ∧ p.type = byType))
    else rayWalkAttack b empties byColor byType df dr fuel file1 rank1

/-- `raycasting_attack`: true when some direction's walk finds an attacker. -/
def raycasting_attack (square : Square) (byColor : Color) (byType : PieceType)
    (b : Board) : List Vec → Except PyErr Bool
  | [] => .ok false
  | (df, dr) :: dirs =>
    match rayWalkAttack b b.empty_squares byColor byType df dr 32
        square.file square.rank with
    | .error e => .error e
    | .ok true => .ok true
    | .ok false => raycasting_attack square byColor byType b dirs

/-- `single_step_attack`: the target lookup only happens for in-bounds
targets. -/
def single_step_attack (square : Square) (byColor : Color) (byType : PieceType)
    (b : Board) : List Vec → Except PyErr Bool
  | [] => .ok false
  | (df, dr) :: deltas =>
    let target : Square := ⟨square.file + df, square.rank + dr⟩
    if ¬target.is_within_bounds then
      single_step_attack square byColor byType b deltas
    else
      match b.piece target with
      | .error e => .error e
      | .ok p =>
        if p.color = byColor ∧ p.type = byType then .ok true
        else single_step_attack square byColor byType b deltas

/-- `is_attacked_by_pawn`: the deltas are the inverses of the pawn-capture
deltas of the attacking color. -/
def is_attacked_by_pawn (square : Square) (byColor : Color) (b : Board) :
    Except PyErr Bool :=
  single_step_attack square byColor .PAWN b
    (if byColor = Color.WHITE then [(1, -1), (-1, -1)] else [(1, 1), (-1, 1)])

/-- `is_attacked_by_knight`. -/
def is_attacked_by_knight (square : Square) (byColor : Color) (b : Board) :
    Except PyErr Bool :=
  single_step_attack square byColor .KNIGHT b
    [(2, 1), (2, -1), (-2, 1), (-2, -1), (1, 2), (1, -2), (-1, 2), (-1, -2)]

/-- `is_attacked_by_bishop`. -/
def is_attacked_by_bishop (square : Square) (byColor : Color) (b : Board) :
    Except PyErr Bool :=
  raycasting_attack square byColor .BISHOP b [(1, 1), (-1, 1), (1, -1), (-1, -1)]

/-- `is_attacked_by_rook`. -/
def is_attacked_by_rook (square : Square) (byColor : Color) (b : Board) :
    Except PyErr Bool :=
  raycasting_attack square byColor .ROOK b [(1, 0), (-1, 0), (0, 1), (0, -1)]

/-- `is_attacked_by_queen`: straights then diagonals, combined with `or`. -/
def is_attacked_by_queen (square : Square) (byColor : Color) (b : Board) :
    Except PyErr Bool :=
  match raycasting_attack square byColor .QUEEN b
      [(1, 0), (-1, 0), (0, 1), (0, -1)] with
  | .error e => .error e
  | .ok onStraight =>
    match raycasting_attack square byColor .QUEEN b
        [(1, 1), (-1, 1), (1, -1), (-1, -1)] with
    | .error e => .error e
    | .ok onDiagonal => .ok (onStraight || onDiagonal)

/-- `is_attacked_by_king`. -/
def is_attacked_by_king (square : Square) (byColor : Color) (b : Board) :
    Except PyErr Bool :=
  single_step_attack square byColor .KING b
    [(0, 1), (0, -1), (1, 0), (-1, 0), (1, 1), (1, -1), (-1, 1), (-1, -1)]

/-- `ATTACK_RULES` in enum order, used by the attack dispatch. -/
def ATTACK_RULES : List (Square → Color → Board → Except PyErr Bool) :=
  [is_attacked_by_pawn, is_attacked_by_knight, is_attacked_by_bishop,
   is_attacked_by_rook, is_attacked_by_queen, is_attacked_by_king]

/-- `castling_king_squares`. -/
def castling_king_squares (d : CastlingDirection) : Square × Square :=
  ((CASTLING_RULES d).king_from, (CASTLING_RULES d).king_to)

/-- `castling_rook_squares`. -/
def castling_rook_squares (d : CastlingDirection) : Square × Square :=
  ((CASTLING_RULES d).rook_from, (CASTLING_RULES d).rook_to)

/-- The walk of `squares_between_on_rank`, fuel-driven (the source loops until
the walk reaches `to_square`, which for two distinct squares on one rank takes
at most 16 steps from anywhere the code calls it). -/
def squaresBetweenWalk (toSquare : Square) (df : Int) :
    Nat → Square → List Square → Except PyErr (List Square)
  | 0, _, _ => .error .Diverges
  | fuel + 1, square, acc =>
    let trySquare : Square := ⟨square.file + df, square.rank⟩
    if trySquare = toSquare then .ok acc
    else squaresBetweenWalk toSquare df fuel trySquare (acc ++ [trySquare])

/-- `squares_between_on_rank`: the open interval between two squares of the
same rank; a `ValueError`-class fault on different ranks. -/
def squares_between_on_rank (from_square to_square : Square) :
    Except PyErr (List Square) :=
  if from_square.rank ≠ to_square.rank then .error .ValueError
  else
    let df : Int := if to_square.file - from_square.file > 0 then 1 else -1
    squaresBetweenWalk to_square df 32 from_square []

/-- `candidate_castling_move`: the king relocation tagged with the
direction. -/
def candidate_castling_move (d : CastlingDirection) : Move :=
  ⟨(castling_king_squares d).1, (castling_king_squares d).2, none, some d, false⟩

/-- Modelled from the spec: `castling_path`, imported by the game module from
the moves module but absent from the source tree.  Per the spec the corridor
used both for the occupancy test and for the attack test is the set of squares
strictly between the king's and the rook's home squares (`squaresBetween`),
which the supplied `squares_between_on_rank` computes. -/
def castling_path (d : CastlingDirection) : Except PyErr (List Square) :=
  squares_between_on_rank (castling_rook_squares d).1 (castling_king_squares d).1

/-- The pawn-probe loop of `en_passant_moves` over `df ∈ [-1, 1]`.  Faithful
to the source, the probed square is looked up without a bounds check, so an
en-passant target on the a- or h-file reaches a `KeyError`. -/
def enPassantLoop (en_passant_square : Square) (color : Color) (b : Board)
    (oppositeDirection : Int) : List Int → Except PyErr (List Move)
  | [] => .ok []
  | df :: dfs =>
    let maybe_pawn_square : Square :=
      ⟨en_passant_square.file + df, en_passant_square.rank + oppositeDirection⟩
    match b.piece maybe_pawn_square with
    | .error e => .error e
    | .ok p =>
      if p = ⟨.PAWN, color⟩ then
        match enPassantLoop en_passant_square color b oppositeDirection dfs with
        | .error e => .error e
        | .ok ms =>
          .ok (⟨maybe_pawn_square, en_passant_square, none, none, true⟩ :: ms)
      else enPassantLoop en_passant_square color b oppositeDirection dfs

/-- `en_passant_moves`: probe the two squares diagonally behind the target for
an own pawn. -/
def en_passant_moves (en_passant_square : Square) (color : Color) (b : Board) :
    Except PyErr (List Move) :=
  enPassantLoop en_passant_square color b
    (if color = Color.WHITE then -1 else 1) [-1, 1]

/-- `PROMOTION_OPTIONS`. -/
def PROMOTION_OPTIONS : List PieceType :=
  [.KNIGHT, .BISHOP, .ROOK, .QUEEN]

/-- `is_pawn_push_to_promotion_square`: a pawn move whose target rank is the
first or last rank. -/
def is_pawn_push_to_promotion_square (m : Move) (b : Board) :
    Except PyErr Bool :=
  match b.piece m.from_square with
  | .error e => .error e
  | .ok moving_piece =>
    .ok (decide (moving_piece.type = PieceType.PAWN
      ∧ (m.to_square.rank = 1 ∨ m.to_square.rank = BOARD_DIMENSIONS.2)))

/-- `pawn_pushes_w_promotion`: one copy of the push per promotion option. -/
def pawn_pushes_w_promotion (pawn_push : Move) : List Move :=
  PROMOTION_OPTIONS.map
    (fun t => ⟨pawn_push.from_square, pawn_push.to_square, some t, none, false⟩)

end Chess

namespace Chess

-- ### src/chess/board.py : candidate generation and remaining board methods

/-- The per-piece loop of `Board.generate_candidate_moves`: dispatch each own
square to its movement rule (the `deepcopy` of the source is the identity on
the value). -/
def candidateLoop (b : Board) : List Square → Except PyErr (List Move)
  | [] => .ok []
  | sq :: rest =>
    match b.piece sq with
    | .error e => .error e
    | .ok p =>
      match MOVEMENT_RULES p.type with
      | none => .error .KeyError
      | some rule =>
        match rule sq b with
        | .error e => .error e
        | .ok ms =>
          match candidateLoop b rest with
          | .error e => .error e
          | .ok rest_ms => .ok (ms ++ rest_ms)

/-- `Board.generate_candidate_moves`: pseudo-legal moves of one side. -/
def Board.generate_candidate_moves (b : Board) (color : Color) :
    Except PyErr (List Move) :=
  candidateLoop b (b.locate_color color)

/-- Modelled from the spec: `Board.place_piece`, absent from the source tree
(§4.1 lists `placePiece`; the tests place pieces on given squares).  A plain
dict write. -/
def Board.place_piece (b : Board) (p : Piece) (s : Square) : Board :=
  ⟨dictSet b.position s p⟩

/-- Modelled from the spec: `Board.remove_piece`, absent from the source tree
(§4.1 lists `removePiece`; the board stays a total mapping, so removal stores
the empty marker). -/
def Board.remove_piece (b : Board) (s : Square) : Board :=
  ⟨dictSet b.position s ⟨.EMPTY, .NONE⟩⟩

/-- Modelled from the spec: `Board.promote_piece`, absent from the source tree
(§4.1: `promotePiece(coord, newKind)` rewrites the destination piece's
kind). -/
def Board.promote_piece (b : Board) (s : Square) (newKind : PieceType) :
    Except PyErr Board :=
  match b.piece s with
  | .error e => .error e
  | .ok p => .ok ⟨dictSet b.position s ⟨newKind, p.color⟩⟩

/-- Modelled from the spec: `Board.king_square`, absent from the source tree
(§4.1: must find exactly one match; caller error if zero or multiple). -/
def Board.king_square (b : Board) (color : Color) : Except PyErr Square :=
  match (b.position.filter
      (fun kv => decide (kv.2 = (⟨.KING, color⟩ : Piece)))).map
      (fun kv => kv.1) with
  | [sq] => .ok sq
  | _ => .error .ValueError

/-- The dispatch loop of `is_square_attacked` over the attack-rule table. -/
def attackLoop (square : Square) (byColor : Color) (b : Board) :
    List (Square → Color → Board → Except PyErr Bool) → Except PyErr Bool
  | [] => .ok false
  | rule :: rest =>
    match rule square byColor b with
    | .error e => .error e
    | .ok true => .ok true
    | .ok false => attackLoop square byColor b rest

/-- Modelled from the spec: `Board.is_square_attacked`, absent from the source
tree (§4.1: dispatch to the kind-specific attack-detection function for every
kind and return true if any reports an attacker). -/
def Board.is_square_attacked (b : Board) (square : Square) (byColor : Color) :
    Except PyErr Bool :=
  attackLoop square byColor b ATTACK_RULES

/-- Modelled from the spec: `Board.is_check`, absent from the source tree
(§4.1: `isCheck(side) = isSquareAttacked(kingSquare(side), opponent(side))`). -/
def Board.is_check (b : Board) (color : Color) : Except PyErr Bool :=
  match b.king_square color with
  | .error e => .error e
  | .ok ksq =>
    b.is_square_attacked ksq (if color = Color.WHITE then .BLACK else .WHITE)

/-- Modelled from the spec: `Board.is_any_occupied`, absent from the source
tree; the game uses it to test whether any square of the castling corridor is
occupied. -/
def Board.is_any_occupied (b : Board) : List Square → Except PyErr Bool
  | [] => .ok false
  | sq :: rest =>
    match b.piece sq with
    | .error e => .error e
    | .ok p =>
      if p.type ≠ PieceType.EMPTY then .ok true else b.is_any_occupied rest

/-- Modelled from the spec: `Board.is_any_under_attack`, absent from the
source tree; the game uses it to test whether any square of the castling
corridor is attacked by the opponent. -/
def Board.is_any_under_attack (b : Board) (squares : List Square)
    (byColor : Color) : Except PyErr Bool :=
  match squares with
  | [] => .ok false
  | sq :: rest =>
    match b.is_square_attacked sq byColor with
    | .error e => .error e
    | .ok true => .ok true
    | .ok false => b.is_any_under_attack rest byColor

end Chess

namespace Chess

-- ### src/chess/fen.py

/-- `STARTING_FEN`. -/
def STARTING_FEN : List Char :=
  "rnbqkbnr/pppppppp/8/8/8/8/PPPPPPPP/RNBQKBNR w KQkq - 0 1".toList

/-- `VALID_CASTLING_ENCODINGS`. -/
def VALID_CASTLING_ENCODINGS : List (List Char) :=
  ["-".toList, "K".toList, "Q".toList, "k".toList, "q".toList, "KQ".toList,
   "Kk".toList, "Kq".toList, "Qk".toList, "Qq".toList, "kq".toList,
   "KQk".toList, "KQq".toList, "Kkq".toList, "Qkq".toList, "KQkq".toList]

/-- `CASTLING_ENCODING_ORDER`. -/
def CASTLING_ENCODING_ORDER : List CastlingDirection :=
  [.WHITE_KING_SIDE, .WHITE_QUEEN_SIDE, .BLACK_KING_SIDE, .BLACK_QUEEN_SIDE]

/-- The castling-rights dict: the source builds `{direction: bool}` with all
four directions always present, so it is a record of four booleans. -/
structure CastlingRights where
  white_king_side : Bool
  white_queen_side : Bool
  black_king_side : Bool
  black_queen_side : Bool
  deriving DecidableEq

/-- Dict read `castling_rights[direction]`. -/
def CastlingRights.get (r : CastlingRights) (d : CastlingDirection) : Bool :=
  match d with
  | .WHITE_KING_SIDE => r.white_king_side
  | .WHITE_QUEEN_SIDE => r.white_queen_side
  | .BLACK_KING_SIDE => r.black_king_side
  | .BLACK_QUEEN_SIDE => r.black_queen_side

/-- Dict write `castling_rights[direction] = v`. -/
def CastlingRights.set (r : CastlingRights) (d : CastlingDirection) (v : Bool) :
    CastlingRights :=
  match d with
  | .WHITE_KING_SIDE => { r with white_king_side := v }
  | .WHITE_QUEEN_SIDE => { r with white_queen_side := v }
  | .BLACK_KING_SIDE => { r with black_king_side := v }
  | .BLACK_QUEEN_SIDE => { r with black_queen_side := v }

/-- `castling_from_fen`: each direction's right is whether its letter occurs
in the field. -/
def castling_from_fen (castle_fen : List Char) : CastlingRights :=
  ⟨decide ('K' ∈ castle_fen), decide ('Q' ∈ castle_fen),
   decide ('k' ∈ castle_fen), decide ('q' ∈ castle_fen)⟩

/-- `castling_to_fen`: letters of the held rights in canonical order, or a
dash when none remain. -/
def castling_to_fen (r : CastlingRights) : List Char :=
  let castling_chars :=
    (CASTLING_ENCODING_ORDER.filter (fun d => r.get d)).map
      CastlingDirection.value
  if castling_chars = [] then ['-'] else castling_chars

/-- The per-rank character scan of `is_valid_position`: `none` on an invalid
character, otherwise the accumulated file count. -/
def rankFileCount : List Char → Nat → Option Nat
  | [], acc => some acc
  | c :: rest, acc =>
    if isDigitChar c then rankFileCount rest (acc + digitVal c)
    else if (FEN_TO_PIECE c.toLower).isSome then rankFileCount rest (acc + 1)
    else none

/-- `is_valid_position`: 8 ranks, each rank's file count exactly 8. -/
def is_valid_position (position : List Char) : Bool :=
  let rank_fens := splitOn '/' position
  decide (rank_fens.length = 8)
    && rank_fens.all (fun r => rankFileCount r 0 = some 8)

/-- `is_valid_color_code`. -/
def is_valid_color_code (color : List Char) : Bool :=
  decide (color = ['w'] ∨ color = ['b'])

/-- `is_valid_castling_rights`. -/
def is_valid_castling_rights (castling : List Char) : Bool :=
  decide (castling ∈ VALID_CASTLING_ENCODINGS)

/-- `is_valid_square`: a board file letter followed by digits giving a rank in
range. -/
def is_valid_square (square : List Char) : Bool :=
  match square with
  | [] => false
  | file_char :: rank_char =>
    decide (file_char ∈ ['a', 'b', 'c', 'd', 'e', 'f', 'g', 'h'])
      && decide (rank_char ≠ []) && rank_char.all isDigitChar
      && decide (1 ≤ parseNat rank_char ∧ parseNat rank_char ≤ 8)

/-- `is_valid_en_passant`. -/
def is_valid_en_passant (en_passant : List Char) : Bool :=
  decide (en_passant = ['-']) || is_valid_square en_passant

/-- `is_valid_move_counter`: Python `str.isdigit` (false on the empty
string). -/
def is_valid_move_counter (counter : List Char) : Bool :=
  decide (counter ≠ []) && counter.all isDigitChar

/-- `is_valid_fen`: six space-separated fields, each valid. -/
def is_valid_fen (fen : List Char) : Bool :=
  match splitOn ' ' fen with
  | [position, color, castling, en_passant, half_move, full_move] =>
    is_valid_position position && is_valid_color_code color
      && is_valid_castling_rights castling && is_valid_en_passant en_passant
      && is_valid_move_counter half_move && is_valid_move_counter full_move
  | _ => false

/-- `FENState`: the data of one FEN string.  The clocks are natural numbers;
the validator admits only digit strings and the game never decrements. -/
structure FENState where
  position : List Char
  color_to_move : Color
  castling_rights : CastlingRights
  en_passant_square : Option Square
  half_move_clock : Nat
  num_turns : Nat
  deriving DecidableEq

/-- `FENState.from_fen`: validate, split into the six fields, and parse each. -/
def FENState.from_fen (fen : List Char) : Except PyErr FENState :=
  if ¬is_valid_fen fen then .error .InvalidFENError
  else
    match splitOn ' ' fen with
    | [position, active_color, castling_str, en_passant_algebraic,
       half_move_chars, num_turn_chars] =>
      let color_to_move : Color :=
        if active_color = ['w'] then .WHITE else .BLACK
      let castling_rights := castling_from_fen castling_str
      match (if en_passant_algebraic ≠ ['-'] then
          match Square.from_algebraic en_passant_algebraic with
          | .error e => .error e
          | .ok sq => .ok (some sq)
        else .ok none : Except PyErr (Option Square)) with
      | .error e => .error e
      | .ok en_passant_square =>
        match pyInt half_move_chars with
        | .error e => .error e
        | .ok half_move_clock =>
          match pyInt num_turn_chars with
          | .error e => .error e
          | .ok num_turns =>
            .ok ⟨position, color_to_move, castling_rights, en_passant_square,
              half_move_clock, num_turns⟩
    | _ => .error .ValueError

/-- `FENState.to_fen`: reassemble the six space-separated fields. -/
def FENState.to_fen (s : FENState) : List Char :=
  s.position ++ [' ']
    ++ (if s.color_to_move = Color.WHITE then ['w'] else ['b']) ++ [' ']
    ++ castling_to_fen s.castling_rights ++ [' ']
    ++ (match s.en_passant_square with
        | some sq => sq.to_algebraic
        | none => ['-']) ++ [' ']
    ++ natToChars s.half_move_clock ++ [' ']
    ++ natToChars s.num_turns

/-- `FENState.starting_position`. -/
def FENState.starting_position : Except PyErr FENState :=
  FENState.from_fen STARTING_FEN

/-- `FENState.revoke_castling_rights`. -/
def FENState.revoke_castling_rights (s : FENState) (d : CastlingDirection) :
    FENState :=
  { s with castling_rights := s.castling_rights.set d false }

/-- `FENState.castling_options`: the directions whose lowered name contains
the lowered color name as a substring. -/
def FENState.castling_options (color : Color) : List CastlingDirection :=
  castlingDirections.filter (fun d => decide (color.nameLower <:+: d.nameLower))

/-- `FENState.revoke_all_castling_rights`: revoke every option of the color in
order. -/
def FENState.revoke_all_castling_rights (s : FENState) (color : Color) :
    FENState :=
  (FENState.castling_options color).foldl
    (fun acc d => acc.revoke_castling_rights d) s

/-- `FENState.can_castle`: at least one of the color's options is held. -/
def FENState.can_castle (s : FENState) (color : Color) : Bool :=
  (FENState.castling_options color).any (fun d => s.castling_rights.get d)

/-- `FENState.reset_half_move_counter`. -/
def FENState.reset_half_move_counter (s : FENState) : FENState :=
  { s with half_move_clock := 0 }

/-- `FENState.increment_half_move_counter`. -/
def FENState.increment_half_move_counter (s : FENState) : FENState :=
  { s with half_move_clock := s.half_move_clock + 1 }

/-- `FENState.increment_full_move_counter`. -/
def FENState.increment_full_move_counter (s : FENState) : FENState :=
  { s with num_turns := s.num_turns + 1 }

/-- `FENState._repetition_key`: position, side letter, castling string,
en-passant square or dash — the two counters excluded. -/
def FENState.repetition_key (s : FENState) :
    List Char × List Char × List Char × List Char :=
  (s.position, [(s.color_to_move.nameLower).headD ' '],
   castling_to_fen s.castling_rights,
   match s.en_passant_square with
   | some sq => sq.to_algebraic
   | none => ['-'])

/-- `FENState.is_same_position`: repetition-key equality. -/
def FENState.is_same_position (s other : FENState) : Bool :=
  decide (s.repetition_key = other.repetition_key)

end Chess

namespace Chess

-- ### src/core/shared_types.py and src/core/models.py

/-- The game status enumeration.  Its six members are exactly those of the
source `Status` StrEnum. -/
inductive Status where
  | WAITING_FOR_PLAYERS | IN_PROGRESS | CHECKMATE | STALEMATE
  | DRAW_REPETITION | DRAW_FIFTY_HALF_MOVE_RULE
  deriving DecidableEq

/-- `Status` member values (the StrEnum strings). -/
def Status.value (s : Status) : List Char :=
  match s with
  | .WAITING_FOR_PLAYERS => "waiting for players".toList
  | .IN_PROGRESS => "in progress".toList
  | .CHECKMATE => "checkmate".toList
  | .STALEMATE => "stalemate".toList
  | .DRAW_REPETITION => "draw by repetition".toList
  | .DRAW_FIFTY_HALF_MOVE_RULE => "draw by 50 half-moves".toList

/-- `Status` member names. -/
def Status.memberName (s : Status) : List Char :=
  match s with
  | .WAITING_FOR_PLAYERS => "WAITING_FOR_PLAYERS".toList
  | .IN_PROGRESS => "IN_PROGRESS".toList
  | .CHECKMATE => "CHECKMATE".toList
  | .STALEMATE => "STALEMATE".toList
  | .DRAW_REPETITION => "DRAW_REPETITION".toList
  | .DRAW_FIFTY_HALF_MOVE_RULE => "DRAW_FIFTY_HALF_MOVE_RULE".toList

/-- Iteration order of the `Status` enum. -/
def statusMembers : List Status :=
  [.WAITING_FOR_PLAYERS, .IN_PROGRESS, .CHECKMATE, .STALEMATE,
   .DRAW_REPETITION, .DRAW_FIFTY_HALF_MOVE_RULE]

/-- `Status.__members__` lookup: `Status[name]`. -/
def statusOfMemberName (name : List Char) : Option Status :=
  statusMembers.find? (fun s => decide (s.memberName = name))

/-- `GameModel`: the transport-safe record exchanged with the service
layer. -/
structure GameModel where
  current_fen : List Char
  history_fen : List (List Char)
  moves_uci : List (List Char)
  registered_players : List (List Char × List Char)
  status : List Char
  deriving DecidableEq

end Chess

namespace Chess

-- ### src/chess/game.py

/-- Modelled from the spec: `AcceptedMove`, imported by the game module from
the moves module but absent from the source tree (§3: a Move plus a snapshot,
taken before mutation, of the piece that moved and the piece, if any, that was
captured). -/
structure AcceptedMove where
  move : Move
  moving_piece : Piece
  captured_piece : Option Piece
  deriving DecidableEq

/-- Modelled from the spec: `AcceptedMove.from_move_and_board` snapshots the
origin piece and, when the destination is not empty, the destination piece. -/
def AcceptedMove.from_move_and_board (m : Move) (b : Board) :
    Except PyErr AcceptedMove :=
  match b.piece m.from_square with
  | .error e => .error e
  | .ok mover =>
    match b.piece m.to_square with
    | .error e => .error e
    | .ok target =>
      .ok ⟨m, mover, if target.type = PieceType.EMPTY then none else some target⟩

/-- The Game record. -/
structure Game where
  board : Board
  moves : List Move
  history : List (List Char)
  state : FENState
  players : List (Color × List Char)
  status : Status
  deriving DecidableEq

/-- Read of the players dict keyed by color. -/
def playersGet? : List (Color × List Char) → Color → Option (List Char)
  | [], _ => none
  | (c, n) :: rest, color => if c = color then some n else playersGet? rest color

/-- Read of a string-keyed dict (the transport record's player mapping). -/
def strDictGet? : List (List Char × List Char) → List Char →
    Option (List Char)
  | [], _ => none
  | (k, v) :: rest, key => if k = key then some v else strDictGet? rest key

/-- `model.status.replace(" ", "_").upper()`. -/
def statusNameOf (status : List Char) : List Char :=
  (status.map (fun c => if c = ' ' then '_' else c)).map Char.toUpper

/-- `Game.from_model`: validate the status tag and the side names, then build
board, moves, state and players from the record. -/
def Game.from_model (model : GameModel) : Except PyErr Game :=
  match statusOfMemberName (statusNameOf model.status) with
  | none => .error .GameCreationError
  | some status =>
    if ¬(model.registered_players.all
        (fun kv => decide ((kv.1.map Char.toUpper) ∈ AVAILABLE_COLOR_NAMES))) then
      .error .GameCreationError
    else
      match Board.from_fen ((splitOn ' ' model.current_fen).headD []) with
      | .error e => .error e
      | .ok board =>
        match exList (model.moves_uci.map Move.from_uci) with
        | .error e => .error e
        | .ok moves =>
          match FENState.from_fen model.current_fen with
          | .error e => .error e
          | .ok state =>
            let players :=
              [Color.WHITE, Color.BLACK].filterMap
                (fun c => (strDictGet? model.registered_players c.nameLower).map
                  (fun v => (c, v)))
            .ok ⟨board, moves, model.history_fen, state, players, status⟩

/-- `Game.to_model`: encode back into the transport record. -/
def Game.to_model (g : Game) : Except PyErr GameModel :=
  match exList (g.moves.map Move.to_uci) with
  | .error e => .error e
  | .ok moves_uci =>
    .ok ⟨g.state.to_fen, g.history, moves_uci,
      [Color.WHITE, Color.BLACK].filterMap
        (fun c => (playersGet? g.players c).map (fun v => (c.nameLower, v))),
      g.status.value⟩

/-- `Game._get_turn_player`: players dict read keyed by the side to move. -/
def Game.get_turn_player (g : Game) : Except PyErr (List Char) :=
  match playersGet? g.players g.state.color_to_move with
  | some p => .ok p
  | none => .error .KeyError

/-- `Game._get_player_color`: first color whose registered name matches
(`next(...)` raises `StopIteration` when none does). -/
def Game.get_player_color (g : Game) (player : List Char) : Except PyErr Color :=
  match g.players.find? (fun kv => decide (kv.2 = player)) with
  | some kv => .ok kv.1
  | none => .error .StopIteration

/-- `Game._get_turn_player_color`. -/
def Game.get_turn_player_color (g : Game) : Except PyErr Color :=
  match g.get_turn_player with
  | .error e => .error e
  | .ok turn_player => g.get_player_color turn_player

/-- `Game._get_opponent_color`. -/
def Game.get_opponent_color (g : Game) : Except PyErr Color :=
  match g.get_turn_player_color with
  | .error e => .error e
  | .ok pc => .ok (if pc = Color.BLACK then .WHITE else .BLACK)

/-- `Game._assert_your_turn`. -/
def Game.assert_your_turn (g : Game) (player : List Char) :
    Except PyErr Unit :=
  match g.get_turn_player with
  | .error e => .error e
  | .ok player_to_move =>
    if player ≠ player_to_move then .error .NotYourTurnError else .ok ()

/-- `Game._has_castling_rights`. -/
def Game.has_castling_rights (g : Game) (d : CastlingDirection) : Bool :=
  g.state.castling_rights.get d

/-- `Game._has_any_castling_rights`. -/
def Game.has_any_castling_rights (g : Game) (color : Color) : Bool :=
  g.state.can_castle color

/-- The per-direction loop of `Game._legal_castling_directions`: skip a
direction when its right is revoked, its corridor is occupied, or its corridor
is attacked. -/
def castlingDirLoop (b : Board) (opp : Color) (rights : CastlingRights) :
    List CastlingDirection → Except PyErr (List CastlingDirection)
  | [] => .ok []
  | d :: rest =>
    if ¬rights.get d then castlingDirLoop b opp rights rest
    else
      match castling_path d with
      | .error e => .error e
      | .ok path =>
        match b.is_any_occupied path with
        | .error e => .error e
        | .ok true => castlingDirLoop b opp rights rest
        | .ok false =>
          match b.is_any_under_attack path opp with
          | .error e => .error e
          | .ok true => castlingDirLoop b opp rights rest
          | .ok false =>
            match castlingDirLoop b opp rights rest with
            | .error e => .error e
            | .ok l => .ok (d :: l)

/-- `Game._legal_castling_directions`: no direction while in check or with all
rights revoked; otherwise the per-direction loop over the mover's options. -/
def Game.legal_castling_directions (g : Game) :
    Except PyErr (List CastlingDirection) :=
  match g.get_turn_player_color with
  | .error e => .error e
  | .ok pc =>
    match g.board.is_check pc with
    | .error e => .error e
    | .ok true => .ok []
    | .ok false =>
      if ¬g.has_any_castling_rights pc then .ok []
      else
        match g.get_opponent_color with
        | .error e => .error e
        | .ok opp =>
          castlingDirLoop g.board opp g.state.castling_rights
            (FENState.castling_options pc)

/-- `Game._can_castle`: `bool(...)` of the direction list. -/
def Game.can_castle (g : Game) : Except PyErr Bool :=
  match g.legal_castling_directions with
  | .error e => .error e
  | .ok dirs => .ok (decide (dirs ≠ []))

/-- `Game._generate_castling_moves`. -/
def Game.generate_castling_moves (g : Game) : Except PyErr (List Move) :=
  match g.legal_castling_directions with
  | .error e => .error e
  | .ok dirs => .ok (dirs.map candidate_castling_move)

/-- `Game._move_castling_pieces`: relocate the king, then the rook. -/
def Game.move_castling_pieces (b : Board) (d : CastlingDirection) :
    Except PyErr Board :=
  let squares := CASTLING_RULES d
  match b.move_piece ⟨squares.king_from, squares.king_to, none, none, false⟩ with
  | .error e => .error e
  | .ok b1 =>
    b1.move_piece ⟨squares.rook_from, squares.rook_to, none, none, false⟩

/-- `Game._is_putting_yourself_in_check`: apply the candidate to a scratch
copy of the board (for castling relocating both king and rook; the
en-passant-captured pawn is not removed) and test for check. -/
def Game.is_putting_yourself_in_check (g : Game) (m : Move) :
    Except PyErr Bool :=
  match (match m.castling_direction with
    | some d => Game.move_castling_pieces g.board d
    | none => g.board.move_piece m) with
  | .error e => .error e
  | .ok scratch =>
    match g.get_turn_player_color with
    | .error e => .error e
    | .ok pc => scratch.is_check pc

/-- `Game._generate_en_passant_moves`. -/
def Game.generate_en_passant_moves (g : Game) (ep : Square) :
    Except PyErr (List Move) :=
  match g.get_turn_player_color with
  | .error e => .error e
  | .ok pc => en_passant_moves ep pc g.board

/-- Step (4) of the legal-move pipeline: keep the candidates that do not put
or leave the mover in check. -/
def checkFilterLoop (g : Game) : List Move → Except PyErr (List Move)
  | [] => .ok []
  | m :: rest =>
    match g.is_putting_yourself_in_check m with
    | .error e => .error e
    | .ok true => checkFilterLoop g rest
    | .ok false =>
      match checkFilterLoop g rest with
      | .error e => .error e
      | .ok l => .ok (m :: l)

/-- Step (5) of the legal-move pipeline: expand pawn pushes that reach a
promotion rank into the four promotion variants. -/
def promotionExpandLoop (g : Game) : List Move → Except PyErr (List Move)
  | [] => .ok []
  | m :: rest =>
    match is_pawn_push_to_promotion_square m g.board with
    | .error e => .error e
    | .ok true =>
      match promotionExpandLoop g rest with
      | .error e => .error e
      | .ok l => .ok (pawn_pushes_w_promotion m ++ l)
    | .ok false =>
      match promotionExpandLoop g rest with
      | .error e => .error e
      | .ok l => .ok (m :: l)

/-- `Game._generate_legal_moves`: candidates, plus castling and en-passant
candidates, filtered for check safety, then promotion-expanded. -/
def Game.generate_legal_moves (g : Game) (color : Color) :
    Except PyErr (List Move) :=
  match g.board.generate_candidate_moves color with
  | .error e => .error e
  | .ok candidate_moves =>
    match g.can_castle with
    | .error e => .error e
    | .ok canC =>
      match (if canC then g.generate_castling_moves
        else .ok [] : Except PyErr (List Move)) with
      | .error e => .error e
      | .ok castling_moves =>
        match (match g.state.en_passant_square with
          | some ep => g.generate_en_passant_moves ep
          | none => .ok [] : Except PyErr (List Move)) with
        | .error e => .error e
        | .ok ep_moves =>
          match checkFilterLoop g (candidate_moves ++ castling_moves ++ ep_moves) with
          | .error e => .error e
          | .ok survivors => promotionExpandLoop g survivors

/-- `Game.legal_moves`: public query; game must be in progress and it must be
the caller's turn. -/
def Game.legal_moves (g : Game) (player : List Char) :
    Except PyErr (List (List Char)) :=
  if g.status ≠ Status.IN_PROGRESS then .error .GameStateError
  else
    match g.assert_your_turn player with
    | .error e => .error e
    | .ok _ =>
      match g.get_player_color player with
      | .error e => .error e
      | .ok pc =>
        match g.generate_legal_moves pc with
        | .error e => .error e
        | .ok ms => exList (ms.map Move.to_uci)

end Chess

namespace Chess

-- ### src/chess/game.py : move execution and status

/-- `Game._is_castling_move`. -/
def Game.is_castling_move (am : AcceptedMove) : Bool :=
  am.move.castling_direction.isSome

/-- `Game._is_king_move`. -/
def Game.is_king_move (am : AcceptedMove) : Bool :=
  decide (am.moving_piece.type = PieceType.KING)

/-- `Game._is_rook_move`. -/
def Game.is_rook_move (am : AcceptedMove) : Bool :=
  decide (am.moving_piece.type = PieceType.ROOK)

/-- `Game._is_pawn_move`. -/
def Game.is_pawn_move (am : AcceptedMove) : Bool :=
  decide (am.moving_piece.type = PieceType.PAWN)

/-- `Game._is_capture`: `bool(move.captured_piece)`. -/
def Game.is_capture (am : AcceptedMove) : Bool :=
  am.captured_piece.isSome

/-- `Game._is_half_move`: neither a pawn move nor a capture. -/
def Game.is_half_move (am : AcceptedMove) : Bool :=
  !Game.is_pawn_move am && !Game.is_capture am

/-- The rook-right revocation loop (steps 3 and 4 of
`Game._revoke_castling_rights_if_needed`): revoke the first option whose
canonical rook home square matches, then break. -/
def revokeRookLoop (s : FENState) (sq : Square) :
    List CastlingDirection → FENState
  | [] => s
  | d :: rest =>
    if sq = (castling_rook_squares d).1 then s.revoke_castling_rights d
    else revokeRookLoop s sq rest

/-- `Game._revoke_castling_rights_if_needed`: the four revocation rules, all
predicated on snapshots of "has any rights" taken before any revocation. -/
def Game.revoke_castling_rights_if_needed (g : Game) (am : AcceptedMove) :
    Except PyErr FENState :=
  match g.get_turn_player_color with
  | .error e => .error e
  | .ok pc =>
    match g.get_opponent_color with
    | .error e => .error e
    | .ok opp =>
      let player_has_rights := g.has_any_castling_rights pc
      let opponent_has_rights := g.has_any_castling_rights opp
      let s := g.state
      let s := if player_has_rights && Game.is_castling_move am then
          s.revoke_all_castling_rights pc else s
      let s := if player_has_rights && Game.is_king_move am then
          s.revoke_all_castling_rights pc else s
      let s := if player_has_rights && Game.is_rook_move am then
          revokeRookLoop s am.move.from_square (FENState.castling_options pc)
        else s
      let s := if opponent_has_rights
          && decide (am.captured_piece = some (⟨.ROOK, opp⟩ : Piece)) then
          revokeRookLoop s am.move.to_square (FENState.castling_options opp)
        else s
      .ok s

/-- `Game._determine_en_passant_square`: present only after a two-rank pawn
move, one rank behind the destination, as an algebraic string. -/
def Game.determine_en_passant_square (g : Game) (am : AcceptedMove) :
    Except PyErr (Option (List Char)) :=
  let ranks_moved := (am.move.from_square.rank - am.move.to_square.rank).natAbs
  if Game.is_pawn_move am ∧ ranks_moved = 2 then
    match g.get_turn_player_color with
    | .error e => .error e
    | .ok pc =>
      let direction : Int := if pc = Color.WHITE then 1 else -1
      .ok (some (Square.to_algebraic
        ⟨am.move.from_square.file, am.move.from_square.rank + direction⟩))
  else .ok none

/-- `Game._move_en_passant_pieces`: move the pawn diagonally, then remove the
opponent pawn standing on the target's file at the mover's original rank; the
source asserts the en-passant square is recorded. -/
def Game.move_en_passant_pieces (g : Game) (b : Board) (m : Move) :
    Except PyErr Board :=
  match g.state.en_passant_square with
  | none => .error .AssertionError
  | some ep =>
    match b.move_piece m with
    | .error e => .error e
    | .ok b1 => .ok (b1.remove_piece ⟨ep.file, m.from_square.rank⟩)

/-- `Game._update_board`: castling moves king and rook, en passant also
removes the captured pawn, any other move is a single relocation; a promotion
then rewrites the destination piece's kind. -/
def Game.update_board (g : Game) (am : AcceptedMove) : Except PyErr Board :=
  match (match am.move.castling_direction with
    | some d => Game.move_castling_pieces g.board d
    | none =>
      if am.move.is_en_passant then g.move_en_passant_pieces g.board am.move
      else g.board.move_piece am.move : Except PyErr Board) with
  | .error e => .error e
  | .ok b1 =>
    match am.move.promote_to with
    | some pt => b1.promote_piece am.move.to_square pt
    | none => .ok b1

/-- `Game._update_fen_state`, called after the board update: refresh the
position field, revoke castling rights from the pre-move snapshot, recompute
the en-passant target, update the clocks, and flip the side to move last. -/
def Game.update_fen_state (g : Game) (am : AcceptedMove) :
    Except PyErr FENState :=
  match g.board.to_fen with
  | .error e => .error e
  | .ok posStr =>
    let g1 : Game := { g with state := { g.state with position := posStr } }
    match g1.get_turn_player_color with
    | .error e => .error e
    | .ok player_color =>
      match g1.revoke_castling_rights_if_needed am with
      | .error e => .error e
      | .ok s1 =>
        let g2 : Game := { g1 with state := s1 }
        match g2.determine_en_passant_square am with
        | .error e => .error e
        | .ok epStr =>
          match (match epStr with
            | some cs =>
              match Square.from_algebraic cs with
              | .error e => .error e
              | .ok sq => .ok (some sq)
            | none => .ok none : Except PyErr (Option Square)) with
          | .error e => .error e
          | .ok epSq =>
            let s2 := { s1 with en_passant_square := epSq }
            let s3 := if Game.is_half_move am then
                s2.increment_half_move_counter
              else s2.reset_half_move_counter
            let s4 := if player_color = Color.BLACK then
                s3.increment_full_move_counter
              else s3
            .ok { s4 with color_to_move :=
              if player_color = Color.BLACK then .WHITE else .BLACK }

/-- `Game._has_legal_move`. -/
def Game.has_legal_move (g : Game) (color : Color) : Except PyErr Bool :=
  match g.generate_legal_moves color with
  | .error e => .error e
  | .ok ms => .ok (decide (ms.length > 0))

/-- `Game._is_check`. -/
def Game.is_check (g : Game) (color : Color) : Except PyErr Bool :=
  g.board.is_check color

/-- `Game._is_check_mate`: in check with no legal move (short-circuit as in
the source's `and`). -/
def Game.is_check_mate (g : Game) (color : Color) : Except PyErr Bool :=
  match g.is_check color with
  | .error e => .error e
  | .ok false => .ok false
  | .ok true =>
    match g.has_legal_move color with
    | .error e => .error e
    | .ok h => .ok !h

/-- `Game._is_stale_mate`: not in check and no legal move. -/
def Game.is_stale_mate (g : Game) (color : Color) : Except PyErr Bool :=
  match g.is_check color with
  | .error e => .error e
  | .ok true => .ok false
  | .ok false =>
    match g.has_legal_move color with
    | .error e => .error e
    | .ok h => .ok !h

/-- The history scan of `Game._is_three_fold_repetition`: parse each stored
FEN, count the key-equal ones, and return true as soon as two are found (the
new position itself being the first occurrence). -/
def threeFoldLoop (new_fen : FENState) :
    List (List Char) → Nat → Except PyErr Bool
  | [], _ => .ok false
  | h :: rest, count =>
    match FENState.from_fen h with
    | .error e => .error e
    | .ok prev =>
      let count1 := if new_fen.is_same_position prev then count + 1 else count
      if count1 ≥ 2 then .ok true else threeFoldLoop new_fen rest count1

/-- `Game._is_three_fold_repetition`. -/
def Game.is_three_fold_repetition (g : Game) : Except PyErr Bool :=
  threeFoldLoop g.state g.history 0

/-- `Game._is_half_move_clock_draw`. -/
def Game.is_half_move_clock_draw (g : Game) : Bool :=
  decide (g.state.half_move_clock ≥ 50)

/-- `Game._update_game_status`: the four end-condition checks run
unconditionally in this order and each that holds overwrites the status. -/
def Game.update_game_status (g : Game) : Except PyErr Game :=
  match g.get_turn_player_color with
  | .error e => .error e
  | .ok next_player_color =>
    match g.is_check_mate next_player_color with
    | .error e => .error e
    | .ok mate =>
      let g1 := if mate then { g with status := Status.CHECKMATE } else g
      match g1.is_stale_mate next_player_color with
      | .error e => .error e
      | .ok stale =>
        let g2 := if stale then { g1 with status := Status.STALEMATE } else g1
        match g2.is_three_fold_repetition with
        | .error e => .error e
        | .ok rep =>
          let g3 := if rep then { g2 with status := Status.DRAW_REPETITION }
            else g2
          .ok (if g3.is_half_move_clock_draw then
            { g3 with status := Status.DRAW_FIFTY_HALF_MOVE_RULE } else g3)

/-- `next(move for move in legal_moves if move.to_uci() == move_uci)`. -/
def findSelected (move_uci : List Char) : List Move → Except PyErr Move
  | [] => .error .StopIteration
  | m :: rest =>
    match m.to_uci with
    | .error e => .error e
    | .ok u => if u = move_uci then .ok m else findSelected move_uci rest

/-- `Game.make_move`: the public move submission.  The result pairs the Game
state after the call with the outcome, `(g', error e)` meaning the Python call
raised `e` leaving the object in state `g'` — the rejection checks all run
before any mutation, while a failure inside a later step leaves the earlier
steps' mutations behind (each helper's own mutations are modelled atomically
at its boundary). -/
def Game.make_move (g : Game) (move_uci : List Char) (player : List Char) :
    Game × Except PyErr Unit :=
  if g.status ≠ Status.IN_PROGRESS then (g, .error .GameStateError)
  else
    match g.assert_your_turn player with
    | .error e => (g, .error e)
    | .ok _ =>
      match g.get_player_color player with
      | .error e => (g, .error e)
      | .ok player_color =>
        match g.generate_legal_moves player_color with
        | .error e => (g, .error e)
        | .ok legal =>
          match exList (legal.map Move.to_uci) with
          | .error e => (g, .error e)
          | .ok legal_ucis =>
            if move_uci ∉ legal_ucis then (g, .error .IllegalMoveError)
            else
              match findSelected move_uci legal with
              | .error e => (g, .error e)
              | .ok selected =>
                match AcceptedMove.from_move_and_board selected g.board with
                | .error e => (g, .error e)
                | .ok accepted =>
                  let current_fen := g.state.to_fen
                  let g1 := { g with history := g.history ++ [current_fen] }
                  match g1.update_board accepted with
                  | .error e => (g1, .error e)
                  | .ok b1 =>
                    let g2 := { g1 with board := b1 }
                    match g2.update_fen_state accepted with
                    | .error e => (g2, .error e)
                    | .ok s1 =>
                      let g3 := { g2 with state := s1 }
                      let g4 := { g3 with moves := g3.moves ++ [accepted.move] }
                      match g4.update_game_status with
                      | .error e => (g4, .error e)
                      | .ok g5 => (g5, .ok ())

/-- Extract the payload of a successful computation, with a default for the
error case (used only to name concrete successfully-computed values). -/
def okD {α : Type} (x : Except PyErr α) (d : α) : α :=
  match x with
  | .ok v => v
  | .error _ => d

end Chess

namespace Chess

-- ### Claim-side definitions and concrete positions used by the theorems

/-- A Game built from a full FEN (the way `Game.from_model` builds one), with
two registered players "pw" (white) and "pb" (black) and status in
progress. -/
def gameOfFen (fen : List Char) : Game :=
  { board := okD (Board.from_fen ((splitOn ' ' fen).headD [])) ⟨[]⟩
    moves := []
    history := []
    state := okD (FENState.from_fen fen)
      ⟨[], .NONE, ⟨false, false, false, false⟩, none, 0, 0⟩
    players := [(Color.WHITE, "pw".toList), (Color.BLACK, "pb".toList)]
    status := Status.IN_PROGRESS }

/-- The standard starting position as a Game. -/
def startGame : Game := gameOfFen STARTING_FEN

/-- The board of the standard starting position. -/
def startBoard : Board := startGame.board

/-- Check-safety scenario: white king h5 and pawn g5, black rook a5, pawn f5
(which just double-pushed, en-passant target f6) and king h8; white to
move. -/
def gC1 : Game := gameOfFen "7k/8/8/r4pPK/8/8/8/8 w - f6 0 1".toList

/-- The en-passant capture g5xf6 in `gC1`. -/
def mC1 : Move := ⟨⟨7, 5⟩, ⟨6, 6⟩, none, none, true⟩

/-- Atomicity scenario: black king a8 and pawn a7, white king h1; white to
move. -/
def gC4 : Game := gameOfFen "k7/p7/8/8/8/8/8/7K w - - 0 1".toList

/-- Castling scenario: white king e1 and rook a1 with the queen-side right,
black rook b5 and king h8; white to move.  The rook attacks b1 but no square
the king traverses. -/
def gC5 : Game := gameOfFen "7k/8/8/1r6/8/8/8/R3K3 w Q - 0 1".toList

/-- Castling scenario with the corridor free and unattacked: white king e1
and rook a1 with the queen-side right, black king h8; white to move. -/
def gC5b : Game := gameOfFen "7k/8/8/8/8/8/8/R3K3 w Q - 0 1".toList

/-- Repetition-and-fifty scenario: bare kings, half-move clock 49, and a
history already holding two positions whose repetition key equals the position
reached after white plays h1h2. -/
def gC7 : Game :=
  { gameOfFen "k7/8/8/8/8/8/8/7K w - - 49 60".toList with
    history := ["k7/8/8/8/8/8/7K/8 b - - 46 58".toList,
                "k7/8/8/8/8/8/7K/8 b - - 48 59".toList] }

/-- Bare kings with the half-move clock already at 50 and two history entries
matching the current repetition key; black to move. -/
def gC7w : Game :=
  { gameOfFen "k7/8/8/8/8/8/7K/8 b - - 50 60".toList with
    history := ["k7/8/8/8/8/8/7K/8 b - - 46 58".toList,
                "k7/8/8/8/8/8/7K/8 b - - 48 59".toList] }

/-- The result of re-evaluating `gC7w`'s status. -/
def gC7wAfter : Game := okD gC7w.update_game_status gC7w

/-- The Game state after `gC7` plays h1h2. -/
def gC7after : Game := (gC7.make_move "h1h2".toList "pw".toList).1

/-- A finished game (bare kings) whose status is draw by repetition. -/
def gC9 : Game :=
  { gameOfFen "k7/8/8/8/8/8/8/7K w - - 0 1".toList with
    status := Status.DRAW_REPETITION }

/-- A transport record carrying the spec's aborted status tag. -/
def abortedModel : GameModel :=
  ⟨"k7/8/8/8/8/8/8/7K w - - 0 1".toList, [], [], [], "aborted".toList⟩

/-- The squares the king passes through when castling, from its home square
up to and including its destination — the corridor named by the claim for the
attack test (stated from the claim's words, for comparison with the
source-modelled `castling_path`). -/
def king_traversal_squares (d : CastlingDirection) : Except PyErr (List Square) :=
  match squares_between_on_rank (castling_king_squares d).1
      (castling_king_squares d).2 with
  | .error e => .error e
  | .ok mid =>
    .ok ((castling_king_squares d).1 :: mid ++ [(castling_king_squares d).2])

/-- The number of history entries whose repetition key equals that of the
given state (unparsable entries counting as non-matches). -/
def historyKeyMatches (s : FENState) (history : List (List Char)) : Nat :=
  (history.filter (fun h =>
    match FENState.from_fen h with
    | .ok prev => s.is_same_position prev
    | .error _ => false)).length

/-- The characters a canonical piece-placement rank may hold: piece letters
and run digits 1-8. -/
def fenRankChars : List Char :=
  ['p', 'n', 'b', 'r', 'q', 'k', 'P', 'N', 'B', 'R', 'Q', 'K',
   '1', '2', '3', '4', '5', '6', '7', '8']

/-- No two adjacent digit characters (empty runs written maximally). -/
def noAdjacentDigits : List Char → Bool
  | c :: c1 :: rest =>
      !(isDigitChar c && isDigitChar c1) && noAdjacentDigits (c1 :: rest)
  | _ => true

/-- Canonical piece-placement field: piece letters and run digits 1-8 only,
with runs written maximally (no adjacent digits). -/
def canonical_position (p : List Char) : Bool :=
  (splitOn '/' p).all
    (fun r => r.all (fun c => decide (c ∈ fenRankChars)) && noAdjacentDigits r)

/-- Canonical counter field: no leading zero. -/
def canonical_counter (cs : List Char) : Bool :=
  decide (cs.headD ' ' = '0' → cs = ['0'])

/-- Canonical FEN: canonical position field, a dash or two-character
en-passant field, and counters without leading zeros. -/
def canonical_fen (fen : List Char) : Bool :=
  match splitOn ' ' fen with
  | [p, _, _, ep, h, n] =>
      canonical_position p && decide (ep = ['-'] ∨ ep.length = 2)
        && canonical_counter h && canonical_counter n
  | _ => false

/-- The pure piece-list semantics of one rank of `Board.from_fen` (used to
state the decode/encode identity). -/
def decodeRank : List Char → Except PyErr (List Piece)
  | [] => .ok []
  | c :: rest =>
    if c.isAlpha then
      match Piece.from_fen c with
      | .error e => .error e
      | .ok p =>
        match decodeRank rest with
        | .error e => .error e
        | .ok ps => .ok (p :: ps)
    else if isDigitChar c then
      match decodeRank rest with
      | .error e => .error e
      | .ok ps => .ok (List.replicate (digitVal c) ⟨.EMPTY, .NONE⟩ ++ ps)
    else .error .ValueError

/-- The pure run-length encoding of a rank of pieces with a pending
empty-square count (the accumulator semantics of the `Board._rank_to_fen`
scan). -/
def encAux : List Piece → Nat → Except PyErr (List Char)
  | [], k => .ok (if k > 0 then natToChars k else [])
  | p :: ps, k =>
    if p.type ≠ PieceType.EMPTY then
      match p.to_fen with
      | .error e => .error e
      | .ok c =>
        match encAux ps 0 with
        | .error e => .error e
        | .ok rest =>
          .ok ((if k > 0 then natToChars k ++ [c] else [c]) ++ rest)
    else encAux ps (k + 1)

/-- The dictionary entries one rank contributes: consecutive files from
`file` paired with the rank pieces. -/
def zipSquares (file rank : Int) : List Piece → List (Square × Piece)
  | [] => []
  | p :: ps => (⟨file, rank⟩, p) :: zipSquares (file + 1) rank ps

/-- The dictionary blocks of all ranks from `rank` downwards. -/
def rankBlocks : List (List Piece) → Int → List (Square × Piece)
  | [], _ => []
  | ps :: rest, rank => zipSquares 1 rank ps ++ rankBlocks rest (rank - 1)

/-- Play a sequence of `(uci, player)` submissions, keeping whatever state
each call leaves behind (successful or not). -/
def runGame (g : Game) : List (List Char × List Char) → Game
  | [] => g
  | (uci, player) :: rest => runGame (g.make_move uci player).1 rest

end Chess

namespace Chess

-- ### Theorems

set_option maxRecDepth 100000

/-- **C2.** From the standard starting position the legal-move computation
does not return 20 moves at all: the very first pawn examined (a2) makes the
pawn-capture scan look up the out-of-bounds square (0,3), so the computation
raises `KeyError` (and, with the lookup guarded, the generator would yield
only 12 moves since no two-square pawn push is produced, against the 20 the
claim and the repository's own test expect). -/
theorem C2_startpos_legal_move_generation_raises :
    startGame.generate_legal_moves Color.WHITE = .error .KeyError
      ∧ startGame.legal_moves "pw".toList = .error .KeyError :=
  ⟨rfl, rfl⟩

/-- **C6.** Candidate generation is not total over boards whose mapping holds
exactly the in-bounds squares: the pawn-capture scan and the en-passant probe
consult the board's piece lookup at out-of-bounds squares before testing
bounds, so a pawn on the a-file (as in the standard starting position) and an
en-passant target on the a-file raise `KeyError` instead of returning a move
list. -/
theorem C6_candidate_generation_out_of_bounds_lookup :
    candidate_pawn_moves ⟨1, 2⟩ startBoard = .error .KeyError
      ∧ startBoard.generate_candidate_moves Color.WHITE = .error .KeyError
      ∧ en_passant_moves ⟨1, 6⟩ Color.WHITE startBoard = .error .KeyError :=
  ⟨rfl, rfl, rfl⟩

/-- **C1.** Check-safety fails for en passant: in `gC1` the en-passant capture
g5xf6 is in the returned legal-move set (the check filter simulates it without
removing the captured pawn f5, which blocks the rook a5), yet after the move
is actually made — with the captured pawn removed — white's own king on h5 is
attacked by that rook. -/
theorem C1_en_passant_check_safety_violation :
    mC1 ∈ okD (gC1.generate_legal_moves Color.WHITE) []
      ∧ (gC1.make_move "g5f6".toList "pw".toList).2 = .ok ()
      ∧ (gC1.make_move "g5f6".toList "pw".toList).1.board.is_check Color.WHITE
          = .ok true := by
  refine ⟨by decide, rfl, rfl⟩

/-- **C4.** `make_move` is not atomic: in `gC4` white's king move h1h2 is
legal and every mutation step runs, but the final status re-evaluation
generates black's moves and crashes on the a7-pawn's out-of-bounds lookup
(`KeyError`), leaving the Game with the mutated history, board, state and move
log of a half-completed call. -/
theorem C4_make_move_partial_failure :
    (gC4.make_move "h1h2".toList "pw".toList).2 = .error .KeyError
      ∧ (gC4.make_move "h1h2".toList "pw".toList).1.history
          = [gC4.state.to_fen]
      ∧ gC4.history = []
      ∧ (gC4.make_move "h1h2".toList "pw".toList).1 ≠ gC4 := by
  refine ⟨rfl, rfl, rfl, by decide⟩

/-- **C10 (counterexample).** The status enumeration has no aborted member:
the transport tag "aborted" normalises to "ABORTED", which the member lookup
does not know, so reconstruction is rejected — against the claim that the
aborted tag is a known status value. -/
theorem C10_aborted_status_rejected :
    statusOfMemberName (statusNameOf "aborted".toList) = none
      ∧ Game.from_model abortedModel = .error .GameCreationError :=
  ⟨rfl, rfl⟩

/-- **C10 (amended).** The Status state machine consists of exactly the six
non-aborted statuses; no member's value normalises to the tag "aborted", and
reconstructing from any record carrying the "aborted" tag fails the
unknown-status check (before any board work). -/
theorem C10_no_aborted_member (m : GameModel)
    (h : m.status = "aborted".toList) :
    (∀ s : Status, s.value ≠ "aborted".toList)
      ∧ Game.from_model m = .error .GameCreationError := by
  constructor
  · intro s; cases s <;> decide
  · unfold Game.from_model
    rw [h]
    rfl

/-- Witness for `C10_no_aborted_member` at the concrete aborted record. -/
theorem C10_no_aborted_member_witness :
    (∀ s : Status, s.value ≠ "aborted".toList)
      ∧ Game.from_model abortedModel = .error .GameCreationError :=
  C10_no_aborted_member abortedModel rfl

/-- **C9 (counterexample).** The record round trip fails for the
draw-by-repetition status: `to_model` writes the value "draw by repetition",
which `from_model` normalises to "DRAW_BY_REPETITION" — not a member name (the
member is DRAW_REPETITION) — so reconstruction raises instead of
succeeding. -/
theorem C9_draw_status_roundtrip_fails :
    gC9.status = Status.DRAW_REPETITION
      ∧ Except.bind gC9.to_model Game.from_model = .error .GameCreationError :=
  ⟨rfl, rfl⟩

/-- **C5 (counterexample).** In `gC5` every condition of the claim holds for
white's queen side — not in check, right held, corridor b1–d1 empty, and no
square the king traverses (e1, d1, c1) attacked — yet the code offers no
castling direction, because its attack test runs over the full corridor
between king and rook, and b1 is attacked by the rook on b5. -/
theorem C5_queenside_excluded_by_b_file_attack :
    gC5.board.is_check Color.WHITE = .ok false
      ∧ gC5.state.castling_rights.get .WHITE_QUEEN_SIDE = true
      ∧ gC5.board.is_any_occupied (okD (castling_path .WHITE_QUEEN_SIDE) [])
          = .ok false
      ∧ gC5.board.is_any_under_attack
          (okD (king_traversal_squares .WHITE_QUEEN_SIDE) []) Color.BLACK
          = .ok false
      ∧ gC5.legal_castling_directions = .ok [] :=
  ⟨rfl, rfl, rfl, rfl, rfl⟩

/-- **C7 (counterexample).** After h1h2 in `gC7` the new position's repetition
key matches two history entries, but the final status is the fifty-move draw,
not draw-by-repetition: the half-move clock reached 50 on the same move and
the later fifty-move check overwrites the repetition status. -/
theorem C7_fifty_move_overwrites_repetition :
    (gC7.make_move "h1h2".toList "pw".toList).2 = .ok ()
      ∧ 2 ≤ historyKeyMatches gC7after.state gC7after.history
      ∧ gC7after.status = Status.DRAW_FIFTY_HALF_MOVE_RULE
      ∧ gC7after.status ≠ Status.DRAW_REPETITION := by
  refine ⟨rfl, by decide, rfl, by decide⟩

end Chess

namespace Chess
set_option maxRecDepth 100000

theorem CastlingRights.get_set_false (r : CastlingRights)
    (d' d : CastlingDirection) (h : (r.set d' false).get d = true) :
    r.get d = true := by
  cases d' <;> cases d <;>
    simp_all [CastlingRights.set, CastlingRights.get]

theorem FENState.revoke_mono (s : FENState) (d' d : CastlingDirection)
    (h : (s.revoke_castling_rights d').castling_rights.get d = true) :
    s.castling_rights.get d = true :=
  CastlingRights.get_set_false s.castling_rights d' d h

theorem foldl_revoke_mono (d : CastlingDirection) :
    ∀ (ds : List CastlingDirection) (s : FENState),
      ((ds.foldl (fun acc d' => acc.revoke_castling_rights d') s)
        |>.castling_rights.get d) = true →
      s.castling_rights.get d = true := by
  intro ds
  induction ds with
  | nil => intro s h; exact h
  | cons d' rest ih =>
    intro s h
    exact FENState.revoke_mono s d' d (ih (s.revoke_castling_rights d') h)

theorem FENState.revoke_all_mono (s : FENState) (c : Color)
    (d : CastlingDirection)
    (h : (s.revoke_all_castling_rights c).castling_rights.get d = true) :
    s.castling_rights.get d = true :=
  foldl_revoke_mono d (FENState.castling_options c) s h

theorem revokeRookLoop_mono (sq : Square) (d : CastlingDirection) :
    ∀ (ds : List CastlingDirection) (s : FENState),
      (revokeRookLoop s sq ds).castling_rights.get d = true →
      s.castling_rights.get d = true := by
  intro ds
  induction ds with
  | nil => intro s h; exact h
  | cons d' rest ih =>
    intro s h
    unfold revokeRookLoop at h
    split at h
    · exact FENState.revoke_mono s d' d h
    · exact ih s h

theorem ite_fen_mono {c : Prop} [Decidable c] {f : FENState → FENState}
    {s : FENState} {d : CastlingDirection}
    (hf : ∀ t, (f t).castling_rights.get d = true →
      t.castling_rights.get d = true)
    (h : (if c then f s else s).castling_rights.get d = true) :
    s.castling_rights.get d = true := by
  split at h
  · exact hf s h
  · exact h

theorem revoke_if_needed_mono (g : Game) (am : AcceptedMove) (s' : FENState)
    (d : CastlingDirection)
    (h : g.revoke_castling_rights_if_needed am = .ok s')
    (ht : s'.castling_rights.get d = true) :
    g.state.castling_rights.get d = true := by
  unfold Game.revoke_castling_rights_if_needed at h
  split at h
  · exact absurd h (by simp)
  · split at h
    · exact absurd h (by simp)
    · simp only [Except.ok.injEq] at h
      subst h
      replace ht := ite_fen_mono (fun t => revokeRookLoop_mono _ d _ t) ht
      replace ht := ite_fen_mono (fun t => revokeRookLoop_mono _ d _ t) ht
      replace ht := ite_fen_mono (fun t => FENState.revoke_all_mono t _ d) ht
      replace ht := ite_fen_mono (fun t => FENState.revoke_all_mono t _ d) ht
      exact ht

end Chess

namespace Chess
set_option maxRecDepth 100000

theorem update_fen_state_rights_mono (g : Game) (am : AcceptedMove)
    (s' : FENState) (d : CastlingDirection)
    (h : g.update_fen_state am = .ok s')
    (ht : s'.castling_rights.get d = true) :
    g.state.castling_rights.get d = true := by
  unfold Game.update_fen_state at h
  split at h
  · exact absurd h (by simp)
  · rename_i posStr hfen
    dsimp only at h
    split at h
    · exact absurd h (by simp)
    · rename_i pc hpc
      split at h
      · exact absurd h (by simp)
      · rename_i s1 hrev
        split at h
        · exact absurd h (by simp)
        · rename_i epStr hep
          split at h
          · exact absurd h (by simp)
          · rename_i epSq hepSq
            simp only [Except.ok.injEq] at h
            subst h
            have hs1 : s1.castling_rights.get d = true := by
              simp only [FENState.increment_half_move_counter,
                FENState.reset_half_move_counter,
                FENState.increment_full_move_counter] at ht
              split at ht <;> split at ht <;> simp_all
            exact revoke_if_needed_mono
                { g with state := { g.state with position := posStr } }
                am s1 d hrev hs1

end Chess

namespace Chess
set_option maxRecDepth 100000

theorem update_game_status_state_eq (g g' : Game)
    (h : g.update_game_status = .ok g') : g'.state = g.state := by
  unfold Game.update_game_status at h
  split at h
  · exact absurd h (by simp)
  · rename_i pc hpc
    split at h
    · exact absurd h (by simp)
    · rename_i mate hmate
      dsimp only at h
      split at h
      · exact absurd h (by simp)
      · rename_i stale hstale
        split at h
        · exact absurd h (by simp)
        · rename_i rep hrep
          simp only [Except.ok.injEq] at h
          subst h
          split <;> split <;> split <;> split <;> rfl

theorem make_move_rights_mono (g : Game) (u p : List Char)
    (d : CastlingDirection)
    (h : (g.make_move u p).1.state.castling_rights.get d = true) :
    g.state.castling_rights.get d = true := by
  unfold Game.make_move at h
  split at h
  · exact h
  · split at h
    · exact h
    · split at h
      · exact h
      · split at h
        · exact h
        · split at h
          · exact h
          · split at h
            · exact h
            · split at h
              · exact h
              · split at h
                · exact h
                · dsimp only at h
                  split at h
                  · exact h
                  · rename_i b1 hb1
                    split at h
                    · exact h
                    · rename_i s1 hs1
                      have hmono := update_fen_state_rights_mono
                        { board := b1, moves := g.moves,
                          history := g.history ++ [g.state.to_fen],
                          state := g.state, players := g.players,
                          status := g.status } _ _ d hs1
                      split at h
                      · exact hmono h
                      · rename_i g5 hg5
                        rw [update_game_status_state_eq _ _ hg5] at h
                        exact hmono h

/-- **C8.** Castling-rights monotonicity: along any sequence of move
submissions — accepted, rejected, or crashing part-way — a castling right that
is true afterwards was already true before, so each of the four rights never
transitions false→true and transitions true→false at most once for the
lifetime of the game. -/
theorem C8_castling_rights_monotone (g : Game)
    (ms : List (List Char × List Char)) (d : CastlingDirection)
    (h : (runGame g ms).state.castling_rights.get d = true) :
    g.state.castling_rights.get d = true := by
  induction ms generalizing g with
  | nil => exact h
  | cons m rest ih =>
    cases m with
    | mk uci player =>
      simp only [runGame] at h
      exact make_move_rights_mono g uci player d (ih (g.make_move uci player).1 h)

/-- Witness for `C8_castling_rights_monotone`: a one-submission run from the
standard starting position (the submission errors, the rights stay true). -/
theorem C8_castling_rights_monotone_witness :
    startGame.state.castling_rights.get .WHITE_KING_SIDE = true :=
  C8_castling_rights_monotone startGame [("e2e4".toList, "pw".toList)]
    .WHITE_KING_SIDE (by rfl)

end Chess

namespace Chess
set_option maxRecDepth 100000

theorem castling_path_eq :
    castling_path .WHITE_KING_SIDE = .ok [⟨7, 1⟩, ⟨6, 1⟩]
      ∧ castling_path .WHITE_QUEEN_SIDE = .ok [⟨2, 1⟩, ⟨3, 1⟩, ⟨4, 1⟩]
      ∧ castling_path .BLACK_KING_SIDE = .ok [⟨7, 8⟩, ⟨6, 8⟩]
      ∧ castling_path .BLACK_QUEEN_SIDE = .ok [⟨2, 8⟩, ⟨3, 8⟩, ⟨4, 8⟩] :=
  ⟨rfl, rfl, rfl, rfl⟩

theorem can_castle_of_mem (s : FENState) (pc : Color) (d : CastlingDirection)
    (hmem : d ∈ FENState.castling_options pc)
    (hget : s.castling_rights.get d = true) : s.can_castle pc = true := by
  unfold FENState.can_castle
  rw [List.any_eq_true]
  exact ⟨d, hmem, hget⟩

theorem castlingDirLoop_mem (b : Board) (opp : Color) (r : CastlingRights) :
    ∀ (dirs : List CastlingDirection) (l : List CastlingDirection),
      castlingDirLoop b opp r dirs = .ok l →
      ∀ d, (d ∈ l ↔ d ∈ dirs ∧ r.get d = true
        ∧ b.is_any_occupied (okD (castling_path d) []) = .ok false
        ∧ b.is_any_under_attack (okD (castling_path d) []) opp = .ok false) := by
  intro dirs
  induction dirs with
  | nil =>
    intro l h d
    unfold castlingDirLoop at h
    simp only [Except.ok.injEq] at h
    subst h
    simp
  | cons d' rest ih =>
    intro l h d
    unfold castlingDirLoop at h
    split at h
    · -- right for d' revoked
      rename_i hget'
      rw [ih l h d]
      constructor
      · rintro ⟨hmem, hrest⟩
        exact ⟨List.mem_cons_of_mem d' hmem, hrest⟩
      · rintro ⟨hmem, hget, hrest⟩
        rcases List.mem_cons.mp hmem with rfl | hmem'
        · exact absurd hget hget'
        · exact ⟨hmem', hget, hrest⟩
    · rename_i hget'
      split at h
      · exact absurd h (by simp)
      · rename_i path hpath
        have hokD : okD (castling_path d') [] = path := by rw [hpath]; rfl
        split at h
        · exact absurd h (by simp)
        · -- corridor occupied
          rename_i hocc
          rw [ih l h d]
          constructor
          · rintro ⟨hmem, hrest⟩
            exact ⟨List.mem_cons_of_mem d' hmem, hrest⟩
          · rintro ⟨hmem, hget, hoccd, hattd⟩
            rcases List.mem_cons.mp hmem with rfl | hmem'
            · rw [hokD] at hoccd
              rw [hoccd] at hocc
              exact absurd hocc (by simp)
            · exact ⟨hmem', hget, hoccd, hattd⟩
        · rename_i hocc
          split at h
          · exact absurd h (by simp)
          · -- corridor attacked
            rename_i hatt
            rw [ih l h d]
            constructor
            · rintro ⟨hmem, hrest⟩
              exact ⟨List.mem_cons_of_mem d' hmem, hrest⟩
            · rintro ⟨hmem, hget, hoccd, hattd⟩
              rcases List.mem_cons.mp hmem with rfl | hmem'
              · rw [hokD] at hattd
                rw [hattd] at hatt
                exact absurd hatt (by simp)
              · exact ⟨hmem', hget, hoccd, hattd⟩
          · -- direction survives
            rename_i hatt
            split at h
            · exact absurd h (by simp)
            · rename_i l' hloop
              simp only [Except.ok.injEq] at h
              subst h
              rw [List.mem_cons, ih l' hloop d]
              constructor
              · rintro (rfl | ⟨hmem, hrest⟩)
                · simp only [Bool.not_eq_true, Bool.not_eq_false] at hget'
                  rw [hokD] at *
                  exact ⟨List.mem_cons_self d rest, hget', hocc, hatt⟩
                · exact ⟨List.mem_cons_of_mem d' hmem, hrest⟩
              · rintro ⟨hmem, hget, hoccd, hattd⟩
                rcases List.mem_cons.mp hmem with rfl | hmem'
                · exact Or.inl rfl
                · exact Or.inr ⟨hmem', hget, hoccd, hattd⟩

end Chess

namespace Chess
set_option maxRecDepth 100000

theorem get_opponent_color_eq (g : Game) (pc : Color)
    (hpc : g.get_turn_player_color = .ok pc) :
    g.get_opponent_color
      = .ok (if pc = Color.BLACK then Color.WHITE else Color.BLACK) := by
  unfold Game.get_opponent_color
  rw [hpc]

/-- **C5 (amended).** A castling direction is offered as a candidate if and
only if, in order: the mover is not currently in check; that direction's right
has not been revoked (and it is one of the mover's directions); every square
strictly between the king's and rook's home squares is unoccupied; and none of
those same between-squares — not merely the squares the king traverses — is
attacked by the opponent.  Failure of any condition excludes only that
direction. -/
theorem C5_castling_direction_offered_iff (g : Game) (pc : Color)
    (l : List CastlingDirection) (d : CastlingDirection)
    (hpc : g.get_turn_player_color = .ok pc)
    (hl : g.legal_castling_directions = .ok l) :
    d ∈ l ↔ (g.board.is_check pc = .ok false
      ∧ g.state.castling_rights.get d = true
      ∧ d ∈ FENState.castling_options pc
      ∧ g.board.is_any_occupied (okD (castling_path d) []) = .ok false
      ∧ g.board.is_any_under_attack (okD (castling_path d) [])
          (if pc = Color.BLACK then Color.WHITE else Color.BLACK)
          = .ok false) := by
  unfold Game.legal_castling_directions at hl
  rw [hpc] at hl
  dsimp only at hl
  split at hl
  · exact absurd hl (by simp)
  · -- currently in check: the empty list is returned
    rename_i hchk
    simp only [Except.ok.injEq] at hl
    subst hl
    simp [hchk]
  · rename_i hchk
    split at hl
    · -- no castling right held at all
      rename_i hno
      simp only [Except.ok.injEq] at hl
      subst hl
      simp only [List.not_mem_nil, false_iff]
      rintro ⟨-, hget, hmem, -⟩
      exact hno (can_castle_of_mem g.state pc d hmem hget)
    · rename_i hany
      rw [get_opponent_color_eq g pc hpc] at hl
      dsimp only at hl
      rw [castlingDirLoop_mem g.board _ g.state.castling_rights
        (FENState.castling_options pc) l hl d]
      constructor
      · rintro ⟨hmem, hget, hocc, hatt⟩
        exact ⟨hchk, hget, hmem, hocc, hatt⟩
      · rintro ⟨-, hget, hmem, hocc, hatt⟩
        exact ⟨hmem, hget, hocc, hatt⟩

/-- Witness for `C5_castling_direction_offered_iff` at `gC5b`: all of white's
queen-side conditions hold there, so the direction is offered. -/
theorem C5_castling_direction_offered_iff_witness :
    Chess.CastlingDirection.WHITE_QUEEN_SIDE
      ∈ okD gC5b.legal_castling_directions [] := by
  have h := C5_castling_direction_offered_iff gC5b Color.WHITE
    [.WHITE_QUEEN_SIDE] .WHITE_QUEEN_SIDE (by rfl) (by rfl)
  exact h.mpr ⟨by rfl, by rfl, by decide, by rfl, by rfl⟩

end Chess

namespace Chess
set_option maxRecDepth 100000

theorem historyKeyMatches_cons (s : FENState) (h : List Char)
    (rest : List (List Char)) :
    historyKeyMatches s (h :: rest)
      = (if (match FENState.from_fen h with
          | .ok prev => s.is_same_position prev
          | .error _ => false) then 1 else 0) + historyKeyMatches s rest := by
  unfold historyKeyMatches
  rw [List.filter_cons]
  split
  · simp_all
    omega
  · simp_all

theorem threeFoldLoop_eq (s : FENState) :
    ∀ (hist : List (List Char)) (count : Nat), count < 2 →
      (∀ h ∈ hist, ∃ st, FENState.from_fen h = .ok st) →
      threeFoldLoop s hist count
        = .ok (decide (2 ≤ count + historyKeyMatches s hist)) := by
  intro hist
  induction hist with
  | nil =>
    intro count hcount _
    unfold threeFoldLoop historyKeyMatches
    simp
    omega
  | cons h rest ih =>
    intro count hcount hp
    obtain ⟨st, hst⟩ := hp h (List.mem_cons_self h rest)
    have hrest : ∀ x ∈ rest, ∃ st, FENState.from_fen x = .ok st :=
      fun x hx => hp x (List.mem_cons_of_mem h hx)
    unfold threeFoldLoop
    rw [hst, historyKeyMatches_cons s h rest, hst]
    dsimp only
    cases hb : s.is_same_position st with
    | false =>
      simp only [hb, Bool.false_eq_true, if_false]
      have hnot : ¬count ≥ 2 := by omega
      rw [if_neg hnot, ih count hcount hrest]
      congr 1
      rw [decide_eq_decide]
      omega
    | true =>
      simp only [hb, if_true]
      by_cases hge : count + 1 ≥ 2
      · rw [if_pos hge]
        have : 2 ≤ count + (1 + historyKeyMatches s rest) := by omega
        simp [this]
      · rw [if_neg hge, ih (count + 1) (by omega) hrest]
        congr 1
        rw [decide_eq_decide]
        omega

end Chess

namespace Chess
set_option maxRecDepth 100000
set_option maxHeartbeats 2000000

/-- **C7 (amended).** The repetition key of a position is exactly the tuple
(piece-placement field, side-to-move letter, castling-rights string,
en-passant square or dash), independent of the half-move clock and full-move
number; and after a move is executed from an in-progress game, status becomes
draw-by-repetition if and only if at least two history entries carry the new
position's key AND the half-move clock has not reached 50 — the fifty-move
check runs later and overwrites the repetition status when both fire. -/
theorem C7_repetition_key_and_status (g g' : Game)
    (hstatus : g.status = Status.IN_PROGRESS)
    (hparse : ∀ h ∈ g.history, ∃ st, FENState.from_fen h = .ok st)
    (hupd : g.update_game_status = .ok g') :
    (∀ s t : FENState, (s.is_same_position t = true ↔
        (s.position, [(s.color_to_move.nameLower).headD ' '],
          castling_to_fen s.castling_rights,
          (match s.en_passant_square with
            | some sq => sq.to_algebraic
            | none => ['-']))
        = (t.position, [(t.color_to_move.nameLower).headD ' '],
          castling_to_fen t.castling_rights,
          (match t.en_passant_square with
            | some sq => sq.to_algebraic
            | none => ['-']))))
      ∧ (∀ (s : FENState) (h1 n1 h2 n2 : Nat),
          ({ s with half_move_clock := h1, num_turns := n1 }
            |>.is_same_position { s with half_move_clock := h2, num_turns := n2 })
          = true)
      ∧ (g'.status = Status.DRAW_REPETITION ↔
          (2 ≤ historyKeyMatches g.state g.history
            ∧ g.state.half_move_clock < 50)) := by
  refine ⟨?_, ?_, ?_⟩
  · intro s t
    unfold FENState.is_same_position FENState.repetition_key
    rw [decide_eq_true_eq]
  · intro s h1 n1 h2 n2
    unfold FENState.is_same_position FENState.repetition_key
    simp
  · unfold Game.update_game_status at hupd
    split at hupd
    · exact absurd hupd (by simp)
    · rename_i pc hpc
      split at hupd
      · exact absurd hupd (by simp)
      · rename_i mate hmate
        dsimp only at hupd
        split at hupd
        · exact absurd hupd (by simp)
        · rename_i stale hstale
          split at hupd
          · exact absurd hupd (by simp)
          · rename_i rep hrep
            simp only [Except.ok.injEq] at hupd
            subst hupd
            clear hstale hmate hpc
            cases stale <;> cases mate <;>
              simp only [Bool.false_eq_true, if_true, if_false, ite_true,
                ite_false] at hrep ⊢ <;>
            · unfold Game.is_three_fold_repetition at hrep
              try dsimp only at hrep
              rw [threeFoldLoop_eq g.state g.history 0 (by omega) hparse]
                at hrep
              simp only [Except.ok.injEq] at hrep
              subst hrep
              unfold Game.is_half_move_clock_draw
              try dsimp only
              simp only [apply_ite (fun x : Game => x.state.half_move_clock)]
              try dsimp only
              simp only [ite_self]
              by_cases hclock : 50 ≤ g.state.half_move_clock
              · rw [if_pos (by simpa using hclock)]
                constructor
                · intro hcontra; simp at hcontra
                · rintro ⟨-, hlt⟩; omega
              · rw [if_neg (by simpa using hclock)]
                by_cases hm : 2 ≤ historyKeyMatches g.state g.history
                · rw [if_pos (by simpa using hm)]
                  exact ⟨fun _ => ⟨hm, by omega⟩, fun _ => rfl⟩
                · rw [if_neg (by simpa using hm)]
                  constructor
                  · intro hcontra; simp_all
                  · rintro ⟨hc, -⟩; exact absurd hc hm

/-- Witness for `C7_repetition_key_and_status` at `gC7w`: the repetition key
matched twice but the clock is at 50, so the status is not
draw-by-repetition. -/
theorem C7_repetition_key_and_status_witness :
    gC7wAfter.status ≠ Status.DRAW_REPETITION := by
  intro hcontra
  have h := C7_repetition_key_and_status gC7w gC7wAfter rfl
    (by intro x hx; fin_cases hx <;> exact ⟨_, rfl⟩) rfl
  rcases h.2.2.mp hcontra with ⟨-, hlt⟩
  revert hlt
  decide

end Chess

namespace Chess
set_option maxRecDepth 100000

-- ### String and decimal lemmas for the round-trip claims (C3, C9)

theorem splitOn_cons (sep c : Char) (cs : List Char) :
    splitOn sep (c :: cs)
      = if c = sep then [] :: splitOn sep cs
        else
          match splitOn sep cs with
          | a :: as => (c :: a) :: as
          | [] => [[c]] := rfl

theorem splitOn_exists (sep : Char) (cs : List Char) :
    ∃ a as, splitOn sep cs = a :: as := by
  induction cs with
  | nil => exact ⟨[], [], rfl⟩
  | cons c cs ih =>
    obtain ⟨a, as, h⟩ := ih
    rw [splitOn_cons]
    by_cases hc : c = sep
    · rw [if_pos hc]
      exact ⟨[], splitOn sep cs, rfl⟩
    · rw [if_neg hc, h]
      exact ⟨c :: a, as, rfl⟩

theorem joinOn_cons_cons (sep c : Char) (a : List Char)
    (as : List (List Char)) :
    joinOn sep ((c :: a) :: as) = c :: joinOn sep (a :: as) := by
  cases as <;> rfl

/-- `str.split` followed by `sep.join` is the identity. -/
theorem joinOn_splitOn (sep : Char) (cs : List Char) :
    joinOn sep (splitOn sep cs) = cs := by
  induction cs with
  | nil => rfl
  | cons c cs ih =>
    obtain ⟨a, as, hsplit⟩ := splitOn_exists sep cs
    rw [splitOn_cons]
    by_cases hc : c = sep
    · rw [if_pos hc, hsplit]
      rw [hsplit] at ih
      subst hc
      calc joinOn c ([] :: a :: as) = c :: joinOn c (a :: as) := rfl
        _ = c :: cs := by rw [ih]
    · rw [if_neg hc, hsplit]
      rw [hsplit] at ih
      rw [joinOn_cons_cons, ih]

-- decimal printing / parsing

theorem digitChar_digitVal (c : Char) (h : isDigitChar c = true) :
    digitChar (digitVal c) = c := by
  simp only [isDigitChar, List.mem_cons, decide_eq_true_eq] at h
  rcases h with rfl | rfl | rfl | rfl | rfl | rfl | rfl | rfl | rfl | rfl | h
  all_goals first | rfl | exact absurd h (List.not_mem_nil c)

theorem digitVal_le_nine (c : Char) : digitVal c ≤ 9 := by
  unfold digitVal
  split <;> omega

theorem digitVal_pos (c : Char) (h : isDigitChar c = true) (h0 : c ≠ '0') :
    1 ≤ digitVal c := by
  simp only [isDigitChar, List.mem_cons, List.not_mem_nil, or_false,
    decide_eq_true_eq] at h
  rcases h with rfl | rfl | rfl | rfl | rfl | rfl | rfl | rfl | rfl | rfl
  · exact absurd rfl h0
  all_goals decide

theorem parseNat_append_digit (ds : List Char) (d : Char) :
    parseNat (ds ++ [d]) = parseNat ds * 10 + digitVal d := by
  unfold parseNat
  rw [List.foldl_append]
  rfl

theorem parse_foldl_ge_one (a : Nat) (cs : List Char) (ha : 1 ≤ a) :
    1 ≤ cs.foldl (fun x c => x * 10 + digitVal c) a := by
  induction cs generalizing a with
  | nil => exact ha
  | cons c cs ih =>
    exact ih (a * 10 + digitVal c) (by omega)

theorem parseNat_pos (cs : List Char) (hne : cs ≠ [])
    (hd : cs.all isDigitChar = true) (h0 : cs.headD ' ' ≠ '0') :
    1 ≤ parseNat cs := by
  cases cs with
  | nil => exact absurd rfl hne
  | cons c rest =>
    unfold parseNat
    simp only [List.foldl_cons, Nat.zero_mul, Nat.zero_add]
    apply parse_foldl_ge_one
    apply digitVal_pos
    · simp only [List.all_cons, Bool.and_eq_true] at hd
      exact hd.1
    · exact h0

theorem natToCharsCore_fuel (n : Nat) :
    ∀ (fuel : Nat) (acc : List Char), n < fuel →
      natToCharsCore fuel n acc = natToChars n ++ acc := by
  induction n using Nat.strong_induction_on with
  | _ n ih =>
    intro fuel acc hlt
    cases fuel with
    | zero => omega
    | succ fuel =>
      by_cases hn : n < 10
      · unfold natToCharsCore natToChars
        rw [if_pos hn]
        cases n with
        | zero => rfl
        | succ m =>
          unfold natToCharsCore
          rw [if_pos hn]
          rfl
      · have hstep : natToCharsCore (fuel + 1) n acc
            = natToCharsCore fuel (n / 10) (digitChar (n % 10) :: acc) := by
          conv =>
            lhs
            rw [natToCharsCore]
          rw [if_neg hn]
        have hdivlt : n / 10 < n := Nat.div_lt_self (by omega) (by omega)
        have hfuel1 : n / 10 < fuel := by omega
        have hfuel2 : n / 10 < n / 10 + 1 := by omega
        rw [hstep, ih (n / 10) hdivlt fuel _ hfuel1]
        have hrhs : natToChars n
            = natToChars (n / 10) ++ [digitChar (n % 10)] := by
          unfold natToChars
          conv =>
            lhs
            unfold natToCharsCore
          rw [if_neg hn]
          rw [ih (n / 10) hdivlt n _ (by omega)]
          rfl
        rw [hrhs, List.append_assoc]
        rfl

theorem natToChars_lt_ten (k : Nat) (hk : k < 10) :
    natToChars k = [digitChar k] := by
  unfold natToChars natToCharsCore
  rw [if_pos hk]

/-- Printing after parsing is the identity for non-empty all-digit strings
without a leading zero. -/
theorem natToChars_parseNat (cs : List Char) (hne : cs ≠ [])
    (hd : cs.all isDigitChar = true)
    (h0 : cs.headD ' ' = '0' → cs = ['0']) :
    natToChars (parseNat cs) = cs := by
  induction cs using List.reverseRecOn with
  | nil => exact absurd rfl hne
  | append_singleton ds d ih =>
    rw [parseNat_append_digit]
    have hdd : isDigitChar d = true := by
      simp only [List.all_append, List.all_cons, Bool.and_eq_true] at hd
      exact hd.2.1
    have hdsd : ds.all isDigitChar = true := by
      simp only [List.all_append, Bool.and_eq_true] at hd
      exact hd.1
    cases ds with
    | nil =>
      simp only [parseNat, List.foldl_nil, Nat.zero_mul, Nat.zero_add]
      rw [natToChars_lt_ten (digitVal d) (by have := digitVal_le_nine d; omega)]
      rw [digitChar_digitVal d hdd]
      rfl
    | cons c rest =>
      have hc0 : c ≠ '0' := by
        intro hc
        subst hc
        have := h0 (by rfl)
        have hlen : (('0' :: rest) ++ [d]).length = 1 := by rw [this]; rfl
        simp at hlen
      have hpos : 1 ≤ parseNat (c :: rest) :=
        parseNat_pos (c :: rest) (by simp) hdsd (by simpa using hc0)
      have hn10 : ¬(parseNat (c :: rest) * 10 + digitVal d < 10) := by
        have := digitVal_le_nine d
        omega
      have hdiv : (parseNat (c :: rest) * 10 + digitVal d) / 10
          = parseNat (c :: rest) := by
        have := digitVal_le_nine d
        omega
      have hmod : (parseNat (c :: rest) * 10 + digitVal d) % 10 = digitVal d := by
        have := digitVal_le_nine d
        omega
      unfold natToChars
      conv =>
        lhs
        unfold natToCharsCore
      rw [if_neg hn10, hdiv, hmod, digitChar_digitVal d hdd]
      rw [natToCharsCore_fuel (parseNat (c :: rest)) _ _ (by omega)]
      rw [ih (by simp) hdsd (fun h => absurd (by simpa using h) hc0)]

end Chess

namespace Chess
set_option maxRecDepth 100000

-- ### FEN field round-trip lemmas

theorem castling_fen_roundtrip (cr : List Char)
    (h : is_valid_castling_rights cr = true) :
    castling_to_fen (castling_from_fen cr) = cr := by
  simp only [is_valid_castling_rights, VALID_CASTLING_ENCODINGS,
    List.mem_cons, List.not_mem_nil, or_false, decide_eq_true_eq] at h
  rcases h with rfl | rfl | rfl | rfl | rfl | rfl | rfl | rfl | rfl | rfl
    | rfl | rfl | rfl | rfl | rfl | rfl <;> rfl

theorem castling_to_fen_valid (r : CastlingRights) :
    is_valid_castling_rights (castling_to_fen r) = true := by
  obtain ⟨a, b, c, d⟩ := r
  cases a <;> cases b <;> cases c <;> cases d <;> decide

theorem parseNat_singleton (c : Char) : parseNat [c] = digitVal c := by
  simp [parseNat]

theorem square_field_roundtrip (ep : List Char)
    (hval : is_valid_square ep = true) (hlen : ep.length = 2) :
    ∃ sq, Square.from_algebraic ep = .ok sq ∧ sq.to_algebraic = ep := by
  match ep, hlen with
  | [fc, rc], _ =>
    simp only [is_valid_square, List.all_cons, List.all_nil, Bool.and_true,
      Bool.and_eq_true, decide_eq_true_eq, List.mem_cons, List.not_mem_nil,
      or_false] at hval
    obtain ⟨⟨⟨hfc, hne⟩, hrcd⟩, hbound⟩ := hval
    rw [parseNat_singleton] at hbound
    refine ⟨⟨(fc.toNat : Int) - 97 + 1, (digitVal rc : Int)⟩, ?_, ?_⟩
    · unfold Square.from_algebraic
      dsimp only
      rw [if_pos hrcd]
    · unfold Square.to_algebraic
      have htail : natToChars ((digitVal rc : Int)).toNat = [rc] := by
        simp only [Int.toNat_natCast]
        rw [natToChars_lt_ten (digitVal rc) (by omega)]
        rw [digitChar_digitVal rc hrcd]
      rw [htail]
      have hhead : Char.ofNat ((((fc.toNat : Int) - 97 + 1).toNat + 97 - 1))
          = fc := by
        rcases hfc with rfl | rfl | rfl | rfl | rfl | rfl | rfl | rfl <;> decide
      rw [hhead]

theorem to_algebraic_from_algebraic (sq : Square)
    (hb : sq.is_within_bounds = true) :
    Square.from_algebraic sq.to_algebraic = .ok sq := by
  obtain ⟨f, r⟩ := sq
  simp only [Square.is_within_bounds, BOARD_DIMENSIONS, decide_eq_true_eq] at hb
  obtain ⟨h1, h2, h3, h4⟩ := hb
  unfold Square.to_algebraic
  dsimp only
  interval_cases f <;> interval_cases r <;> rfl

theorem natToChars_step (n : Nat) (hn : ¬n < 10) :
    natToChars n = natToChars (n / 10) ++ [digitChar (n % 10)] := by
  have hdiv : n / 10 < n := Nat.div_lt_self (by omega) (by omega)
  unfold natToChars
  conv =>
    lhs
    unfold natToCharsCore
  rw [if_neg hn]
  rw [natToCharsCore_fuel (n / 10) n [digitChar (n % 10)] hdiv]
  rfl

theorem natToChars_all_digits (n : Nat) :
    natToChars n ≠ [] ∧ (natToChars n).all isDigitChar = true := by
  induction n using Nat.strong_induction_on with
  | _ n ih =>
    by_cases hn : n < 10
    · rw [natToChars_lt_ten n hn]
      refine ⟨by simp, ?_⟩
      interval_cases n <;> decide
    · rw [natToChars_step n hn]
      have hdiv : n / 10 < n := Nat.div_lt_self (by omega) (by omega)
      obtain ⟨hne, hall⟩ := ih (n / 10) hdiv
      refine ⟨by simp, ?_⟩
      simp only [List.all_append, List.all_cons, List.all_nil, Bool.and_true,
        Bool.and_eq_true]
      refine ⟨hall, ?_⟩
      have : n % 10 < 10 := Nat.mod_lt n (by omega)
      interval_cases h : n % 10 <;> decide

theorem is_valid_move_counter_natToChars (n : Nat) :
    is_valid_move_counter (natToChars n) = true := by
  obtain ⟨hne, hall⟩ := natToChars_all_digits n
  simp [is_valid_move_counter, hne, hall]

theorem pyInt_of_valid (cs : List Char)
    (h : is_valid_move_counter cs = true) : pyInt cs = .ok (parseNat cs) := by
  simp only [is_valid_move_counter, Bool.and_eq_true, decide_eq_true_eq] at h
  unfold pyInt
  rw [if_pos ⟨h.1, h.2⟩]

end Chess
namespace Chess
set_option maxRecDepth 100000

-- ### FEN-state round trip (decode then encode)

theorem fen_fields (fen : List Char) (hv : is_valid_fen fen = true) :
    ∃ p c cr ep h n, splitOn ' ' fen = [p, c, cr, ep, h, n] := by
  unfold is_valid_fen at hv
  split at hv
  · rename_i p c cr ep h n heq
    exact ⟨p, c, cr, ep, h, n, heq⟩
  · exact absurd hv (by simp)

/-- Decoding a validator-accepted, canonically written FEN string succeeds
and re-encoding restores the string byte-exactly. -/
theorem fenstate_roundtrip (fen : List Char)
    (hv : is_valid_fen fen = true) (hc : canonical_fen fen = true) :
    ∃ s : FENState, FENState.from_fen fen = Except.ok s ∧ s.to_fen = fen := by
  obtain ⟨p, c, cr, ep, h, n, heq⟩ := fen_fields fen hv
  have hv' := hv
  unfold is_valid_fen at hv'
  rw [heq] at hv'
  dsimp only at hv'
  simp only [Bool.and_eq_true] at hv'
  obtain ⟨⟨⟨⟨⟨hp, hcl⟩, hcr⟩, hep⟩, hh⟩, hn⟩ := hv'
  unfold canonical_fen at hc
  rw [heq] at hc
  dsimp only at hc
  simp only [Bool.and_eq_true, decide_eq_true_eq] at hc
  obtain ⟨⟨⟨hcp, hcep⟩, hch⟩, hcn⟩ := hc
  simp only [canonical_counter, decide_eq_true_eq] at hch hcn
  have hh' := hh
  simp only [is_valid_move_counter, Bool.and_eq_true, decide_eq_true_eq] at hh'
  have hhrt : natToChars (parseNat h) = h :=
    natToChars_parseNat h hh'.1 hh'.2 hch
  have hn' := hn
  simp only [is_valid_move_counter, Bool.and_eq_true, decide_eq_true_eq] at hn'
  have hnrt : natToChars (parseNat n) = n :=
    natToChars_parseNat n hn'.1 hn'.2 hcn
  have hcrrt := castling_fen_roundtrip cr hcr
  simp only [is_valid_color_code, decide_eq_true_eq] at hcl
  by_cases hd : ep = ['-']
  · subst hd
    refine ⟨⟨p, if c = ['w'] then Color.WHITE else Color.BLACK,
      castling_from_fen cr, none, parseNat h, parseNat n⟩, ?_, ?_⟩
    · unfold FENState.from_fen
      rw [if_neg (fun hcon => hcon hv), heq]
      dsimp only
      rw [if_neg (fun hcon => hcon rfl)]
      dsimp only
      rw [pyInt_of_valid h hh, pyInt_of_valid n hn]
    · unfold FENState.to_fen
      dsimp only
      rw [hcrrt, hhrt, hnrt]
      rw [← joinOn_splitOn ' ' fen, heq]
      rcases hcl with rfl | rfl <;> simp [joinOn]
  · have hlen2 : ep.length = 2 := by
      rcases hcep with hcep | hcep
      · exact absurd hcep hd
      · exact hcep
    have hsq : is_valid_square ep = true := by
      simp only [is_valid_en_passant, Bool.or_eq_true, decide_eq_true_eq] at hep
      rcases hep with hep | hep
      · exact absurd hep hd
      · exact hep
    obtain ⟨sq, hsqfrom, hsqto⟩ := square_field_roundtrip ep hsq hlen2
    refine ⟨⟨p, if c = ['w'] then Color.WHITE else Color.BLACK,
      castling_from_fen cr, some sq, parseNat h, parseNat n⟩, ?_, ?_⟩
    · unfold FENState.from_fen
      rw [if_neg (fun hcon => hcon hv), heq]
      dsimp only
      rw [if_pos hd, hsqfrom]
      dsimp only
      rw [pyInt_of_valid h hh, pyInt_of_valid n hn]
    · unfold FENState.to_fen
      dsimp only
      rw [hcrrt, hhrt, hnrt, hsqto]
      rw [← joinOn_splitOn ' ' fen, heq]
      rcases hcl with rfl | rfl <;> simp [joinOn]

end Chess
namespace Chess
set_option maxRecDepth 100000

-- ### Board decode lemmas (C3)

theorem digit_not_alpha (c : Char) (h : isDigitChar c = true) :
    c.isAlpha = false := by
  simp only [isDigitChar, List.mem_cons, List.not_mem_nil, or_false,
    decide_eq_true_eq] at h
  rcases h with rfl | rfl | rfl | rfl | rfl | rfl | rfl | rfl | rfl | rfl
  all_goals decide

theorem fenRankChar_cases (c : Char) (hc : c ∈ fenRankChars) :
    (c.isAlpha = true
      ∧ (∃ p : Piece, Piece.from_fen c = Except.ok p
          ∧ Piece.to_fen p = Except.ok c ∧ p.type ≠ PieceType.EMPTY)
      ∧ isDigitChar c = false)
    ∨ (c.isAlpha = false ∧ isDigitChar c = true
        ∧ 1 ≤ digitVal c ∧ digitVal c ≤ 8) := by
  fin_cases hc
  all_goals first
    | exact Or.inl ⟨by decide, ⟨_, rfl, rfl, by decide⟩, by decide⟩
    | exact Or.inr ⟨by decide, by decide, by decide, by decide⟩

theorem decodeRank_ok :
    ∀ (r : List Char),
      r.all (fun c => decide (c ∈ fenRankChars)) = true →
      ∃ ps, decodeRank r = Except.ok ps := by
  intro r
  induction r with
  | nil => intro _; exact ⟨[], rfl⟩
  | cons c rest ih =>
    intro hall
    simp only [List.all_cons, Bool.and_eq_true, decide_eq_true_eq] at hall
    obtain ⟨ps, hps⟩ := ih (by
      have := hall.2
      simpa using this)
    rcases fenRankChar_cases c hall.1 with ⟨ha, ⟨p, hpf, _, _⟩, _⟩
      | ⟨ha, hd, _, _⟩
    · refine ⟨p :: ps, ?_⟩
      simp only [decodeRank]
      rw [if_pos ha, hpf, hps]
    · refine ⟨List.replicate (digitVal c) ⟨.EMPTY, .NONE⟩ ++ ps, ?_⟩
      simp only [decodeRank]
      rw [if_neg (by simp [ha]), if_pos hd, hps]

theorem decodeRank_length :
    ∀ (r : List Char) (ps : List Piece) (acc m : Nat),
      decodeRank r = Except.ok ps → rankFileCount r acc = some m →
      acc + ps.length = m := by
  intro r
  induction r with
  | nil =>
    intro ps acc m hdec hcnt
    simp only [decodeRank, Except.ok.injEq] at hdec
    simp only [rankFileCount, Option.some.injEq] at hcnt
    subst hdec
    simpa using hcnt
  | cons c rest ih =>
    intro ps acc m hdec hcnt
    simp only [decodeRank] at hdec
    simp only [rankFileCount] at hcnt
    by_cases hd : isDigitChar c = true
    · have ha : c.isAlpha = false := digit_not_alpha c hd
      rw [if_neg (by simp [ha]), if_pos hd] at hdec
      rw [if_pos hd] at hcnt
      cases hrest : decodeRank rest with
      | error e => rw [hrest] at hdec; exact absurd hdec (by simp)
      | ok ps' =>
        rw [hrest] at hdec
        simp only [Except.ok.injEq] at hdec
        subst hdec
        have := ih ps' (acc + digitVal c) m hrest hcnt
        simp only [List.length_append, List.length_replicate]
        omega
    · rw [if_neg hd] at hcnt
      by_cases ha : c.isAlpha = true
      · rw [if_pos ha] at hdec
        by_cases hpf : (FEN_TO_PIECE c.toLower).isSome = true
        · rw [if_pos hpf] at hcnt
          cases hfrom : Piece.from_fen c with
          | error e => rw [hfrom] at hdec; exact absurd hdec (by simp)
          | ok p =>
            rw [hfrom] at hdec
            cases hrest : decodeRank rest with
            | error e => rw [hrest] at hdec; exact absurd hdec (by simp)
            | ok ps' =>
              rw [hrest] at hdec
              simp only [Except.ok.injEq] at hdec
              subst hdec
              have := ih ps' (acc + 1) m hrest hcnt
              simp only [List.length_cons]
              omega
        · rw [if_neg hpf] at hcnt
          exact absurd hcnt (by simp)
      · rw [if_neg ha, if_neg hd] at hdec
        exact absurd hdec (by simp)

theorem dictGet?_none (pos : List (Square × Piece)) (k : Square)
    (h : ∀ kv ∈ pos, kv.1 ≠ k) : dictGet? pos k = none := by
  induction pos with
  | nil => rfl
  | cons kv tl ih =>
    simp only [dictGet?]
    rw [if_neg (h kv (List.mem_cons_self kv tl))]
    exact ih (fun kv' h' => h kv' (List.mem_cons_of_mem kv h'))

theorem zipSquares_mem (rank : Int) :
    ∀ (ps : List Piece) (file : Int) (kv : Square × Piece),
      kv ∈ zipSquares file rank ps →
      kv.1.rank = rank ∧ file ≤ kv.1.file
        ∧ kv.1.file < file + (ps.length : Int) := by
  intro ps
  induction ps with
  | nil => intro file kv h; exact absurd h (List.not_mem_nil kv)
  | cons p tl ih =>
    intro file kv h
    rcases List.mem_cons.1 h with rfl | h
    · refine ⟨rfl, le_refl _, ?_⟩
      simp only [List.length_cons]
      push_cast
      omega
    · obtain ⟨h1, h2, h3⟩ := ih (file + 1) kv h
      refine ⟨h1, by omega, ?_⟩
      simp only [List.length_cons]
      push_cast
      push_cast at h3
      omega

theorem fresh_append_zip (pos : List (Square × Piece)) (rank file : Int)
    (ps : List Piece)
    (h : ∀ kv ∈ pos, kv.1.rank ≠ rank ∨ kv.1.file < file) :
    ∀ kv ∈ pos ++ zipSquares file rank ps,
      kv.1.rank ≠ rank ∨ kv.1.file < file + (ps.length : Int) := by
  intro kv hkv
  rcases List.mem_append.1 hkv with hkv | hkv
  · rcases h kv hkv with h' | h'
    · exact Or.inl h'
    · refine Or.inr (by omega)
  · obtain ⟨_, _, h3⟩ := zipSquares_mem rank ps file kv hkv
    exact Or.inr h3

theorem dictGet?_fresh_none (pos : List (Square × Piece)) (rank file : Int)
    (h : ∀ kv ∈ pos, kv.1.rank ≠ rank ∨ kv.1.file < file) :
    dictGet? pos ⟨file, rank⟩ = none := by
  apply dictGet?_none
  intro kv hkv heq
  rcases h kv hkv with h' | h'
  · rw [heq] at h'
    exact h' rfl
  · rw [heq] at h'
    simp at h'

theorem dictSet_fresh (pos : List (Square × Piece)) (rank file : Int)
    (p : Piece)
    (h : ∀ kv ∈ pos, kv.1.rank ≠ rank ∨ kv.1.file < file) :
    dictSet pos ⟨file, rank⟩ p = pos ++ [(⟨file, rank⟩, p)] := by
  simp [dictSet, dictGet?_fresh_none pos rank file h]

theorem zipSquares_append (rank : Int) :
    ∀ (ps qs : List Piece) (file : Int),
      zipSquares file rank (ps ++ qs)
        = zipSquares file rank ps
          ++ zipSquares (file + (ps.length : Int)) rank qs := by
  intro ps
  induction ps with
  | nil => intro qs file; simp [zipSquares]
  | cons p tl ih =>
    intro qs file
    show (⟨file, rank⟩, p) :: zipSquares (file + 1) rank (tl ++ qs)
      = zipSquares file rank (p :: tl)
        ++ zipSquares (file + ((p :: tl).length : Int)) rank qs
    rw [ih qs (file + 1)]
    have h2 : file + ((p :: tl).length : Int) = file + 1 + (tl.length : Int) := by
      simp only [List.length_cons]
      push_cast
      ring
    rw [h2]
    rfl

theorem placeEmptyRun_eq (rank : Int) :
    ∀ (m : Nat) (pos : List (Square × Piece)) (file : Int),
      (∀ kv ∈ pos, kv.1.rank ≠ rank ∨ kv.1.file < file) →
      placeEmptyRun pos file rank m
        = pos ++ zipSquares file rank (List.replicate m ⟨.EMPTY, .NONE⟩) := by
  intro m
  induction m with
  | zero => intro pos file _; simp [placeEmptyRun, zipSquares]
  | succ m ih =>
    intro pos file hfresh
    simp only [placeEmptyRun]
    rw [dictSet_fresh pos rank file _ hfresh]
    have hfresh' : ∀ kv ∈ pos ++ [(⟨file, rank⟩, (⟨.EMPTY, .NONE⟩ : Piece))],
        kv.1.rank ≠ rank ∨ kv.1.file < file + 1 := by
      have := fresh_append_zip pos rank file [⟨.EMPTY, .NONE⟩] hfresh
      simpa [zipSquares] using this
    rw [ih _ _ hfresh']
    rw [List.replicate_succ]
    simp only [zipSquares, List.append_assoc, List.singleton_append]

end Chess
namespace Chess
set_option maxRecDepth 100000

theorem fromFenRank_eq (rank : Int) :
    ∀ (r : List Char) (pos : List (Square × Piece)) (file : Int),
      (∀ kv ∈ pos, kv.1.rank ≠ rank ∨ kv.1.file < file) →
      fromFenRank pos rank file r
        = match decodeRank r with
          | .error e => .error e
          | .ok ps => .ok (pos ++ zipSquares file rank ps) := by
  intro r
  induction r with
  | nil =>
    intro pos file _
    simp [fromFenRank, decodeRank, zipSquares]
  | cons c rest ih =>
    intro pos file hfresh
    simp only [fromFenRank, decodeRank]
    by_cases ha : c.isAlpha = true
    · rw [if_pos ha, if_pos ha]
      cases hpf : Piece.from_fen c with
      | error e => rfl
      | ok p =>
        dsimp only
        rw [dictSet_fresh pos rank file p hfresh]
        have hfresh' : ∀ kv ∈ pos ++ [((⟨file, rank⟩, p) : Square × Piece)],
            kv.1.rank ≠ rank ∨ kv.1.file < file + 1 := by
          have := fresh_append_zip pos rank file [p] hfresh
          simpa [zipSquares] using this
        rw [ih _ _ hfresh']
        cases hdr : decodeRank rest with
        | error e => rfl
        | ok ps => simp [zipSquares, List.append_assoc]
    · rw [if_neg ha, if_neg ha]
      by_cases hd : isDigitChar c = true
      · rw [if_pos hd, if_pos hd]
        rw [placeEmptyRun_eq rank (digitVal c) pos file hfresh]
        have hfresh' := fresh_append_zip pos rank file
          (List.replicate (digitVal c) ⟨.EMPTY, .NONE⟩) hfresh
        rw [List.length_replicate] at hfresh'
        rw [ih _ _ hfresh']
        cases hdr : decodeRank rest with
        | error e => rfl
        | ok ps =>
          simp only [zipSquares_append rank, List.length_replicate,
            List.append_assoc]
      · rw [if_neg hd, if_neg hd]

theorem fromFenRanks_eq :
    ∀ (rs : List (List Char)) (pss : List (List Piece))
      (pos : List (Square × Piece)) (i : Nat),
      exList (rs.map decodeRank) = Except.ok pss →
      (∀ kv ∈ pos, (8 : Int) - (i : Int) < kv.1.rank) →
      fromFenRanks pos i rs
        = Except.ok (pos ++ rankBlocks pss ((8 : Int) - (i : Int))) := by
  intro rs
  induction rs with
  | nil =>
    intro pss pos i hex _
    simp only [List.map_nil, exList, Except.ok.injEq] at hex
    subst hex
    simp [fromFenRanks, rankBlocks]
  | cons r rest ih =>
    intro pss pos i hex hfresh
    simp only [List.map_cons, exList] at hex
    cases hdr : decodeRank r with
    | error e => rw [hdr] at hex; exact absurd hex (by simp)
    | ok ps =>
      rw [hdr] at hex
      cases hrest : exList (rest.map decodeRank) with
      | error e => rw [hrest] at hex; exact absurd hex (by simp)
      | ok pss' =>
        rw [hrest] at hex
        simp only [Except.ok.injEq] at hex
        subst hex
        simp only [fromFenRanks]
        have hfr : ∀ kv ∈ pos, kv.1.rank ≠ (8 : Int) - (i : Int)
            ∨ kv.1.file < 1 := by
          intro kv hkv
          exact Or.inl (by have := hfresh kv hkv; omega)
        rw [show (BOARD_DIMENSIONS.2 - (i : Int)) = (8 : Int) - (i : Int)
          from rfl]
        rw [fromFenRank_eq ((8 : Int) - (i : Int)) r pos 1 hfr, hdr]
        dsimp only
        have hfresh2 : ∀ kv ∈ pos ++ zipSquares 1 ((8 : Int) - (i : Int)) ps,
            (8 : Int) - ((i + 1 : Nat) : Int) < kv.1.rank := by
          intro kv hkv
          rcases List.mem_append.1 hkv with hkv | hkv
          · have := hfresh kv hkv
            push_cast
            omega
          · have := (zipSquares_mem ((8 : Int) - (i : Int)) ps 1 kv hkv).1
            push_cast
            omega
        rw [ih pss' _ (i + 1) hrest hfresh2]
        have hcast : (8 : Int) - ((i + 1 : Nat) : Int)
            = (8 : Int) - (i : Int) - 1 := by
          push_cast
          ring
        rw [hcast]
        simp [rankBlocks, List.append_assoc]

theorem board_from_fen_eq (p : List Char) (pss : List (List Piece))
    (hex : exList ((splitOn '/' p).map decodeRank) = Except.ok pss) :
    Board.from_fen p = Except.ok ⟨rankBlocks pss 8⟩ := by
  unfold Board.from_fen
  rw [fromFenRanks_eq (splitOn '/' p) pss [] 0 hex (by simp)]
  simp

end Chess
namespace Chess
set_option maxRecDepth 100000

theorem encAux_replicate :
    ∀ (m : Nat) (ps : List Piece) (k : Nat),
      encAux (List.replicate m ⟨.EMPTY, .NONE⟩ ++ ps) k = encAux ps (k + m) := by
  intro m
  induction m with
  | zero => intro ps k; rfl
  | succ m ih =>
    intro ps k
    rw [List.replicate_succ, List.cons_append]
    have h1 : encAux (⟨.EMPTY, .NONE⟩
          :: (List.replicate m ⟨.EMPTY, .NONE⟩ ++ ps)) k
        = encAux (List.replicate m ⟨.EMPTY, .NONE⟩ ++ ps) (k + 1) := by
      simp only [encAux]
      rw [if_neg (by simp)]
    rw [h1, ih ps (k + 1)]
    have : k + 1 + m = k + (m + 1) := by omega
    rw [this]

theorem encAux_decode (L : Nat) :
    ∀ (r : List Char) (ps : List Piece) (k : Nat),
      r.length ≤ L →
      r.all (fun c => decide (c ∈ fenRankChars)) = true →
      noAdjacentDigits r = true →
      decodeRank r = Except.ok ps →
      isDigitChar (r.headD 'a') = false →
      encAux ps k
        = Except.ok ((if k > 0 then natToChars k else []) ++ r) := by
  induction L with
  | zero =>
    intro r ps k hlen _ _ hdec _
    have hr : r = [] := List.eq_nil_of_length_eq_zero (by omega)
    subst hr
    simp only [decodeRank, Except.ok.injEq] at hdec
    subst hdec
    simp [encAux]
  | succ L ih =>
    intro r ps k hlen hchars hadj hdec hhead
    cases r with
    | nil =>
      simp only [decodeRank, Except.ok.injEq] at hdec
      subst hdec
      simp [encAux]
    | cons c rest =>
      simp only [List.headD_cons] at hhead
      simp only [List.all_cons, Bool.and_eq_true, decide_eq_true_eq] at hchars
      rcases fenRankChar_cases c hchars.1 with
        ⟨ha, ⟨p, hpf, hptf, hpne⟩, _⟩ | ⟨_, hdig, _, _⟩
      · simp only [decodeRank] at hdec
        rw [if_pos ha, hpf] at hdec
        cases hdr : decodeRank rest with
        | error e =>
          rw [hdr] at hdec
          exact absurd hdec (by simp)
        | ok ps' =>
          rw [hdr] at hdec
          simp only [Except.ok.injEq] at hdec
          subst hdec
          have hrest_enc : encAux ps' 0 = Except.ok rest := by
            cases rest with
            | nil =>
              simp only [decodeRank, Except.ok.injEq] at hdr
              subst hdr
              simp [encAux]
            | cons d rest' =>
              simp only [noAdjacentDigits, Bool.and_eq_true] at hadj
              by_cases hd2 : isDigitChar d = true
              · have hd2chars : d ∈ fenRankChars := by
                  have := hchars.2
                  simp only [List.all_cons, Bool.and_eq_true,
                    decide_eq_true_eq] at this
                  exact this.1
                have hdpos : 1 ≤ digitVal d ∧ digitVal d ≤ 8 := by
                  rcases fenRankChar_cases d hd2chars with
                    ⟨_, _, hdig'⟩ | ⟨_, _, h1, h2⟩
                  · rw [hd2] at hdig'
                    exact absurd hdig' (by simp)
                  · exact ⟨h1, h2⟩
                have hhead' : isDigitChar (rest'.headD 'a') = false := by
                  cases rest' with
                  | nil => decide
                  | cons e rest'' =>
                    have hadj2 := hadj.2
                    simp only [noAdjacentDigits, Bool.and_eq_true] at hadj2
                    have h1 := hadj2.1
                    rw [hd2] at h1
                    simp only [List.headD_cons]
                    simpa using h1
                have hadj' : noAdjacentDigits rest' = true := by
                  have hadj2 := hadj.2
                  cases rest' with
                  | nil => rfl
                  | cons e rest'' =>
                    simp only [noAdjacentDigits, Bool.and_eq_true] at hadj2
                    exact hadj2.2
                have hchars' :
                    rest'.all (fun c => decide (c ∈ fenRankChars)) = true := by
                  have := hchars.2
                  simp only [List.all_cons, Bool.and_eq_true] at this
                  exact this.2
                simp only [decodeRank] at hdr
                rw [if_neg (by simp [digit_not_alpha d hd2]), if_pos hd2] at hdr
                cases hdr2 : decodeRank rest' with
                | error e =>
                  rw [hdr2] at hdr
                  exact absurd hdr (by simp)
                | ok ps'' =>
                  rw [hdr2] at hdr
                  simp only [Except.ok.injEq] at hdr
                  subst hdr
                  rw [encAux_replicate (digitVal d) ps'' 0]
                  have hlen' : rest'.length ≤ L := by
                    simp only [List.length_cons] at hlen
                    omega
                  rw [ih rest' ps'' (0 + digitVal d) hlen' hchars' hadj'
                    hdr2 hhead']
                  rw [if_pos (by omega)]
                  rw [natToChars_lt_ten (0 + digitVal d) (by omega)]
                  have : 0 + digitVal d = digitVal d := by omega
                  rw [this, digitChar_digitVal d hd2]
                  rfl
              · have hlen' : (d :: rest').length ≤ L := by
                  simp only [List.length_cons] at hlen
                  simp only [List.length_cons]
                  omega
                have hchars' :
                    (d :: rest').all (fun c => decide (c ∈ fenRankChars))
                      = true := hchars.2
                have hadj' : noAdjacentDigits (d :: rest') = true := hadj.2
                have := ih (d :: rest') ps' 0 hlen' hchars' hadj' hdr
                  (by simpa using hd2)
                rw [this]
                simp
          simp only [encAux]
          rw [if_pos hpne, hptf]
          dsimp only
          rw [hrest_enc]
          dsimp only
          by_cases hk : k > 0
          · rw [if_pos hk, if_pos hk]
            simp [List.append_assoc]
          · rw [if_neg hk, if_neg hk]
            simp
      · rw [hdig] at hhead
        exact absurd hhead (by simp)

theorem encAux_decodeRank_full (r : List Char) (ps : List Piece)
    (hchars : r.all (fun c => decide (c ∈ fenRankChars)) = true)
    (hadj : noAdjacentDigits r = true)
    (hdec : decodeRank r = Except.ok ps) :
    encAux ps 0 = Except.ok r := by
  cases r with
  | nil =>
    simp only [decodeRank, Except.ok.injEq] at hdec
    subst hdec
    rfl
  | cons c rest =>
    by_cases hd : isDigitChar c = true
    · simp only [List.all_cons, Bool.and_eq_true, decide_eq_true_eq] at hchars
      have hdpos : 1 ≤ digitVal c ∧ digitVal c ≤ 8 := by
        rcases fenRankChar_cases c hchars.1 with
          ⟨_, _, hdig'⟩ | ⟨_, _, h1, h2⟩
        · rw [hd] at hdig'
          exact absurd hdig' (by simp)
        · exact ⟨h1, h2⟩
      simp only [decodeRank] at hdec
      rw [if_neg (by simp [digit_not_alpha c hd]), if_pos hd] at hdec
      cases hdr : decodeRank rest with
      | error e =>
        rw [hdr] at hdec
        exact absurd hdec (by simp)
      | ok ps' =>
        rw [hdr] at hdec
        simp only [Except.ok.injEq] at hdec
        subst hdec
        rw [encAux_replicate (digitVal c) ps' 0]
        have hhead' : isDigitChar (rest.headD 'a') = false := by
          cases rest with
          | nil => decide
          | cons e rest'' =>
            simp only [noAdjacentDigits, Bool.and_eq_true] at hadj
            have h1 := hadj.1
            rw [hd] at h1
            simp only [List.headD_cons]
            simpa using h1
        have hadj' : noAdjacentDigits rest = true := by
          cases rest with
          | nil => rfl
          | cons e rest'' =>
            simp only [noAdjacentDigits, Bool.and_eq_true] at hadj
            exact hadj.2
        rw [encAux_decode rest.length rest ps' (0 + digitVal c) (le_refl _)
          (by simpa using hchars.2) hadj' hdr hhead']
        rw [if_pos (by omega)]
        rw [natToChars_lt_ten (0 + digitVal c) (by omega)]
        have : 0 + digitVal c = digitVal c := by omega
        rw [this, digitChar_digitVal c hd]
        rfl
    · rw [encAux_decode (c :: rest).length (c :: rest) ps 0 (le_refl _)
        hchars hadj hdec (by simpa using hd)]
      simp

theorem rankToFenGo_encAux (b : Board) (rank : Int)
    (files : List Int) (ps : List Piece)
    (hf : List.Forall₂ (fun f p => b.piece ⟨f, rank⟩ = Except.ok p) files ps) :
    ∀ (k : Nat) (acc : List Char),
      rankToFenGo b rank files k acc
        = match encAux ps k with
          | .error e => .error e
          | .ok cs => .ok (acc ++ cs) := by
  induction hf with
  | nil =>
    intro k acc
    simp only [rankToFenGo, encAux]
    by_cases hk : k > 0
    · rw [if_pos hk, if_pos hk]
    · rw [if_neg hk, if_neg hk]
      simp
  | @cons f p files' ps' hfp htail ih =>
    intro k acc
    simp only [rankToFenGo]
    rw [hfp]
    dsimp only
    by_cases hne : p.type ≠ PieceType.EMPTY
    · rw [if_pos hne]
      cases hptf : p.to_fen with
      | error e =>
        simp only [encAux]
        rw [if_pos hne, hptf]
      | ok c =>
        dsimp only
        simp only [encAux]
        rw [if_pos hne, hptf]
        dsimp only
        by_cases hk : k > 0
        · rw [if_pos hk, if_pos hk, ih 0 (acc ++ natToChars k ++ [c])]
          cases henc : encAux ps' 0 with
          | error e => rfl
          | ok cs =>
            dsimp only
            simp [List.append_assoc]
        · rw [if_neg hk, if_neg hk, ih 0 (acc ++ [c])]
          cases henc : encAux ps' 0 with
          | error e => rfl
          | ok cs =>
            dsimp only
            simp [List.append_assoc]
    · rw [if_neg hne]
      simp only [encAux]
      rw [if_neg hne]
      exact ih (k + 1) acc

end Chess
namespace Chess
set_option maxRecDepth 100000

theorem dictGet?_append (A B : List (Square × Piece)) (k : Square) :
    dictGet? (A ++ B) k
      = match dictGet? A k with
        | some v => some v
        | none => dictGet? B k := by
  induction A with
  | nil => rfl
  | cons kv tl ih =>
    by_cases hk : kv.1 = k
    · show (if kv.1 = k then some kv.2 else dictGet? (tl ++ B) k) = _
      rw [if_pos hk]
      simp only [dictGet?]
      rw [if_pos hk]
    · show (if kv.1 = k then some kv.2 else dictGet? (tl ++ B) k) = _
      rw [if_neg hk, ih]
      simp only [dictGet?]
      rw [if_neg hk]

theorem zip_rank_ne (rank : Int) (r : Int) (hne : r ≠ rank) :
    ∀ (ps : List Piece) (file f : Int),
      dictGet? (zipSquares file rank ps) ⟨f, r⟩ = none := by
  intro ps
  induction ps with
  | nil => intro file f; rfl
  | cons p tl ih =>
    intro file f
    simp only [zipSquares, dictGet?]
    rw [if_neg (by
      intro hcon
      have : rank = r := congrArg Square.rank hcon
      exact hne this.symm)]
    exact ih (file + 1) f

theorem zip_get (rank : Int) :
    ∀ (ps : List Piece) (file : Int) (j : Nat),
      dictGet? (zipSquares file rank ps) ⟨file + (j : Int), rank⟩
        = ps.get? j := by
  intro ps
  induction ps with
  | nil => intro file j; simp [zipSquares, dictGet?]
  | cons p tl ih =>
    intro file j
    cases j with
    | zero =>
      simp only [zipSquares, dictGet?]
      rw [if_pos (by simp)]
      rfl
    | succ j =>
      simp only [zipSquares, dictGet?]
      rw [if_neg (by
        intro hcon
        have := congrArg Square.file hcon
        simp only at this
        omega)]
      have harith : file + ((j + 1 : Nat) : Int) = (file + 1) + (j : Int) := by
        push_cast
        ring
      rw [harith, ih (file + 1) j]
      rfl

theorem rankBlocks_none_of_gt :
    ∀ (pss : List (List Piece)) (top f r : Int), top < r →
      dictGet? (rankBlocks pss top) ⟨f, r⟩ = none := by
  intro pss
  induction pss with
  | nil => intro top f r _; rfl
  | cons ps rest ih =>
    intro top f r hgt
    simp only [rankBlocks]
    rw [dictGet?_append, zip_rank_ne top r (by omega) ps 1 f]
    exact ih (top - 1) f r (by omega)

theorem rankBlocks_get :
    ∀ (pss : List (List Piece)) (top : Int) (i : Nat) (hi : i < pss.length)
      (j : Nat),
      dictGet? (rankBlocks pss top) ⟨1 + (j : Int), top - (i : Int)⟩
        = (pss.get ⟨i, hi⟩).get? j := by
  intro pss
  induction pss with
  | nil => intro top i hi j; exact absurd hi (by simp)
  | cons ps rest ih =>
    intro top i hi j
    cases i with
    | zero =>
      simp only [rankBlocks, List.get]
      rw [dictGet?_append]
      have h0 : top - ((0 : Nat) : Int) = top := by simp
      rw [h0, zip_get top ps 1 j]
      cases hget : ps.get? j with
      | some p => rfl
      | none =>
        dsimp only
        exact rankBlocks_none_of_gt rest (top - 1) (1 + (j : Int)) top
          (by omega)
    | succ i =>
      simp only [rankBlocks, List.get]
      rw [dictGet?_append]
      rw [zip_rank_ne top (top - ((i + 1 : Nat) : Int)) (by push_cast; omega)
        ps 1 (1 + (j : Int))]
      have harith : top - ((i + 1 : Nat) : Int) = (top - 1) - (i : Int) := by
        push_cast
        ring
      rw [harith]
      exact ih (top - 1) i (by simpa using hi) j

theorem forall2_files (b : Board) (rank : Int) (ps : List Piece)
    (hlen : ps.length = 8)
    (hget : ∀ j : Nat, dictGet? b.position ⟨1 + (j : Int), rank⟩ = ps.get? j) :
    List.Forall₂ (fun f p => b.piece ⟨f, rank⟩ = Except.ok p) fileRange ps := by
  match ps, hlen with
  | [p1, p2, p3, p4, p5, p6, p7, p8], _ =>
    have h0 := hget 0
    have h1 := hget 1
    have h2 := hget 2
    have h3 := hget 3
    have h4 := hget 4
    have h5 := hget 5
    have h6 := hget 6
    have h7 := hget 7
    norm_num at h0 h1 h2 h3 h4 h5 h6 h7
    refine .cons ?_ (.cons ?_ (.cons ?_ (.cons ?_ (.cons ?_ (.cons ?_
      (.cons ?_ (.cons ?_ .nil)))))))
    all_goals unfold Board.piece
    · rw [h0]
    · rw [h1]
    · rw [h2]
    · rw [h3]
    · rw [h4]
    · rw [h5]
    · rw [h6]
    · rw [h7]

end Chess
namespace Chess
set_option maxRecDepth 100000

theorem rank_roundtrip_facts (r : List Char)
    (hcnt : rankFileCount r 0 = some 8)
    (hc1 : ∀ c ∈ r, decide (c ∈ fenRankChars) = true)
    (hc2 : noAdjacentDigits r = true) :
    ∃ q, decodeRank r = Except.ok q ∧ q.length = 8
      ∧ encAux q 0 = Except.ok r := by
  have hall : r.all (fun c => decide (c ∈ fenRankChars)) = true := by
    simpa [List.all_eq_true] using hc1
  obtain ⟨q, hq⟩ := decodeRank_ok r hall
  refine ⟨q, hq, ?_, encAux_decodeRank_full r q hall hc2 hq⟩
  have := decodeRank_length r q 0 8 hq hcnt
  omega

theorem list_length_eight {α : Type} (l : List α) (hl : l.length = 8) :
    ∃ a b c d e f g h, l = [a, b, c, d, e, f, g, h] := by
  match l, hl with
  | [a, b, c, d, e, f, g, h], _ => exact ⟨a, b, c, d, e, f, g, h, rfl⟩

theorem rank_to_fen_of_block (pss : List (List Piece)) (i : Nat)
    (hi : i < pss.length) (hlen : (pss.get ⟨i, hi⟩).length = 8)
    (r : List Char)
    (henc : encAux (pss.get ⟨i, hi⟩) 0 = Except.ok r) :
    Board.rank_to_fen ⟨rankBlocks pss 8⟩ (8 - (i : Int)) = Except.ok r := by
  unfold Board.rank_to_fen
  have hf := forall2_files ⟨rankBlocks pss 8⟩ (8 - (i : Int))
    (pss.get ⟨i, hi⟩) hlen (fun j => rankBlocks_get pss 8 i hi j)
  rw [rankToFenGo_encAux ⟨rankBlocks pss 8⟩ (8 - (i : Int)) fileRange
    (pss.get ⟨i, hi⟩) hf 0 []]
  rw [henc]
  simp

/-- Decoding a validator-accepted, canonically written piece-placement field
into a Board succeeds and re-encoding restores the field byte-exactly. -/
theorem board_roundtrip (p : List Char)
    (hv : is_valid_position p = true) (hc : canonical_position p = true) :
    ∃ b : Board, Board.from_fen p = Except.ok b
      ∧ b.to_fen = Except.ok p := by
  unfold is_valid_position at hv
  dsimp only at hv
  simp only [Bool.and_eq_true, decide_eq_true_eq, List.all_eq_true] at hv
  obtain ⟨hlen8, hcnt⟩ := hv
  unfold canonical_position at hc
  simp only [List.all_eq_true, Bool.and_eq_true] at hc
  obtain ⟨r1, r2, r3, r4, r5, r6, r7, r8, hrs⟩ :=
    list_length_eight (splitOn '/' p) hlen8
  have hmem : ∀ r, r ∈ [r1, r2, r3, r4, r5, r6, r7, r8] →
      r ∈ splitOn '/' p := by
    intro r hr
    rw [hrs]
    exact hr
  obtain ⟨q1, hq1, hl1, he1⟩ := rank_roundtrip_facts r1
    (hcnt r1 (hmem r1 (by simp))) (hc r1 (hmem r1 (by simp))).1
    (hc r1 (hmem r1 (by simp))).2
  obtain ⟨q2, hq2, hl2, he2⟩ := rank_roundtrip_facts r2
    (hcnt r2 (hmem r2 (by simp))) (hc r2 (hmem r2 (by simp))).1
    (hc r2 (hmem r2 (by simp))).2
  obtain ⟨q3, hq3, hl3, he3⟩ := rank_roundtrip_facts r3
    (hcnt r3 (hmem r3 (by simp))) (hc r3 (hmem r3 (by simp))).1
    (hc r3 (hmem r3 (by simp))).2
  obtain ⟨q4, hq4, hl4, he4⟩ := rank_roundtrip_facts r4
    (hcnt r4 (hmem r4 (by simp))) (hc r4 (hmem r4 (by simp))).1
    (hc r4 (hmem r4 (by simp))).2
  obtain ⟨q5, hq5, hl5, he5⟩ := rank_roundtrip_facts r5
    (hcnt r5 (hmem r5 (by simp))) (hc r5 (hmem r5 (by simp))).1
    (hc r5 (hmem r5 (by simp))).2
  obtain ⟨q6, hq6, hl6, he6⟩ := rank_roundtrip_facts r6
    (hcnt r6 (hmem r6 (by simp))) (hc r6 (hmem r6 (by simp))).1
    (hc r6 (hmem r6 (by simp))).2
  obtain ⟨q7, hq7, hl7, he7⟩ := rank_roundtrip_facts r7
    (hcnt r7 (hmem r7 (by simp))) (hc r7 (hmem r7 (by simp))).1
    (hc r7 (hmem r7 (by simp))).2
  obtain ⟨q8, hq8, hl8, he8⟩ := rank_roundtrip_facts r8
    (hcnt r8 (hmem r8 (by simp))) (hc r8 (hmem r8 (by simp))).1
    (hc r8 (hmem r8 (by simp))).2
  have hex : exList ((splitOn '/' p).map decodeRank)
      = Except.ok [q1, q2, q3, q4, q5, q6, q7, q8] := by
    rw [hrs]
    simp only [List.map_cons, List.map_nil]
    rw [hq1, hq2, hq3, hq4, hq5, hq6, hq7, hq8]
    rfl
  have hb1 : Board.rank_to_fen ⟨rankBlocks [q1, q2, q3, q4, q5, q6, q7, q8] 8⟩
      8 = Except.ok r1 := by
    have := rank_to_fen_of_block [q1, q2, q3, q4, q5, q6, q7, q8] 0
      (by norm_num) hl1 r1 he1
    norm_num at this
    exact this
  have hb2 : Board.rank_to_fen ⟨rankBlocks [q1, q2, q3, q4, q5, q6, q7, q8] 8⟩
      7 = Except.ok r2 := by
    have := rank_to_fen_of_block [q1, q2, q3, q4, q5, q6, q7, q8] 1
      (by norm_num) hl2 r2 he2
    norm_num at this
    exact this
  have hb3 : Board.rank_to_fen ⟨rankBlocks [q1, q2, q3, q4, q5, q6, q7, q8] 8⟩
      6 = Except.ok r3 := by
    have := rank_to_fen_of_block [q1, q2, q3, q4, q5, q6, q7, q8] 2
      (by norm_num) hl3 r3 he3
    norm_num at this
    exact this
  have hb4 : Board.rank_to_fen ⟨rankBlocks [q1, q2, q3, q4, q5, q6, q7, q8] 8⟩
      5 = Except.ok r4 := by
    have := rank_to_fen_of_block [q1, q2, q3, q4, q5, q6, q7, q8] 3
      (by norm_num) hl4 r4 he4
    norm_num at this
    exact this
  have hb5 : Board.rank_to_fen ⟨rankBlocks [q1, q2, q3, q4, q5, q6, q7, q8] 8⟩
      4 = Except.ok r5 := by
    have := rank_to_fen_of_block [q1, q2, q3, q4, q5, q6, q7, q8] 4
      (by norm_num) hl5 r5 he5
    norm_num at this
    exact this
  have hb6 : Board.rank_to_fen ⟨rankBlocks [q1, q2, q3, q4, q5, q6, q7, q8] 8⟩
      3 = Except.ok r6 := by
    have := rank_to_fen_of_block [q1, q2, q3, q4, q5, q6, q7, q8] 5
      (by norm_num) hl6 r6 he6
    norm_num at this
    exact this
  have hb7 : Board.rank_to_fen ⟨rankBlocks [q1, q2, q3, q4, q5, q6, q7, q8] 8⟩
      2 = Except.ok r7 := by
    have := rank_to_fen_of_block [q1, q2, q3, q4, q5, q6, q7, q8] 6
      (by norm_num) hl7 r7 he7
    norm_num at this
    exact this
  have hb8 : Board.rank_to_fen ⟨rankBlocks [q1, q2, q3, q4, q5, q6, q7, q8] 8⟩
      1 = Except.ok r8 := by
    have := rank_to_fen_of_block [q1, q2, q3, q4, q5, q6, q7, q8] 7
      (by norm_num) hl8 r8 he8
    norm_num at this
    exact this
  refine ⟨⟨rankBlocks [q1, q2, q3, q4, q5, q6, q7, q8] 8⟩,
    board_from_fen_eq p _ hex, ?_⟩
  unfold Board.to_fen
  simp only [rankRangeDesc, List.map_cons, List.map_nil]
  rw [hb1, hb2, hb3, hb4, hb5, hb6, hb7, hb8]
  show Except.ok (joinOn '/' [r1, r2, r3, r4, r5, r6, r7, r8]) = Except.ok p
  rw [← joinOn_splitOn '/' p, hrs]

end Chess
namespace Chess
set_option maxRecDepth 1000000
set_option maxHeartbeats 2000000

/-- C3 counterexample: the validator accepts the FEN string
`8/8/8/8/8/8/8/8 w - - 00 1` (its half-move counter `00` is all digits), the
decoder accepts it, but re-encoding prints the counter as `0`, so the
round trip is not byte-exact on every validator-accepted string. -/
theorem C3_valid_fen_roundtrip_fails :
    is_valid_fen ("8/8/8/8/8/8/8/8 w - - 00 1".toList) = true
    ∧ ∃ s : FENState,
        FENState.from_fen ("8/8/8/8/8/8/8/8 w - - 00 1".toList) = Except.ok s
        ∧ s.to_fen ≠ "8/8/8/8/8/8/8/8 w - - 00 1".toList := by
  refine ⟨by decide, ⟨_, rfl, by decide⟩⟩

/-- C3 (amended): for every validator-accepted FEN string that is also
canonically written (maximal empty runs in the placement field, two-character
or dash en-passant field, counters without leading zeros), decoding and
re-encoding is the identity; likewise for every accepted and canonical
piece-placement field, building a Board and re-encoding restores the field
byte-exactly. -/
theorem C3_notation_roundtrip (fen p : List Char)
    (hfv : is_valid_fen fen = true) (hfc : canonical_fen fen = true)
    (hpv : is_valid_position p = true) (hpc : canonical_position p = true) :
    (∃ s : FENState, FENState.from_fen fen = Except.ok s ∧ s.to_fen = fen)
    ∧ (∃ b : Board, Board.from_fen p = Except.ok b
        ∧ b.to_fen = Except.ok p) :=
  ⟨fenstate_roundtrip fen hfv hfc, board_roundtrip p hpv hpc⟩

theorem C3_notation_roundtrip_witness :
    (∃ s : FENState, FENState.from_fen STARTING_FEN = Except.ok s
        ∧ s.to_fen = STARTING_FEN)
    ∧ (∃ b : Board,
        Board.from_fen ("rnbqkbnr/pppppppp/8/8/8/8/PPPPPPPP/RNBQKBNR".toList)
          = Except.ok b
        ∧ b.to_fen
          = Except.ok
              ("rnbqkbnr/pppppppp/8/8/8/8/PPPPPPPP/RNBQKBNR".toList)) :=
  C3_notation_roundtrip STARTING_FEN
    ("rnbqkbnr/pppppppp/8/8/8/8/PPPPPPPP/RNBQKBNR".toList)
    (by decide) (by decide) (by decide) (by decide)

end Chess
namespace Chess
set_option maxRecDepth 100000

-- ### Record round-trip lemmas (C9)

theorem digitVal_digitChar (k : Nat) (hk : k < 10) :
    digitVal (digitChar k) = k := by
  interval_cases k <;> decide

theorem parseNat_natToChars (n : Nat) : parseNat (natToChars n) = n := by
  induction n using Nat.strong_induction_on with
  | _ n ih =>
    by_cases hn : n < 10
    · rw [natToChars_lt_ten n hn, parseNat_singleton, digitVal_digitChar n hn]
    · rw [natToChars_step n hn, parseNat_append_digit]
      have hdiv : n / 10 < n := Nat.div_lt_self (by omega) (by omega)
      rw [ih (n / 10) hdiv]
      rw [digitVal_digitChar (n % 10) (Nat.mod_lt n (by omega))]
      omega

theorem pyInt_natToChars (n : Nat) : pyInt (natToChars n) = Except.ok n := by
  rw [pyInt_of_valid (natToChars n) (is_valid_move_counter_natToChars n)]
  rw [parseNat_natToChars]

theorem splitOn_no_sep (sep : Char) :
    ∀ (cs : List Char), sep ∉ cs → splitOn sep cs = [cs] := by
  intro cs
  induction cs with
  | nil => intro _; rfl
  | cons c rest ih =>
    intro h
    rw [splitOn_cons]
    rw [if_neg (by
      intro hcon
      exact h (by rw [hcon]; exact List.mem_cons_self sep rest))]
    rw [ih (fun hmem => h (List.mem_cons_of_mem c hmem))]

theorem splitOn_append_sep (sep : Char) :
    ∀ (a rest : List Char), sep ∉ a →
      splitOn sep (a ++ sep :: rest) = a :: splitOn sep rest := by
  intro a
  induction a with
  | nil =>
    intro rest _
    show splitOn sep (sep :: rest) = [] :: splitOn sep rest
    rw [splitOn_cons, if_pos rfl]
  | cons c a' ih =>
    intro rest h
    show splitOn sep (c :: (a' ++ sep :: rest)) = (c :: a') :: splitOn sep rest
    rw [splitOn_cons]
    rw [if_neg (by
      intro hcon
      exact h (by rw [hcon]; exact List.mem_cons_self sep a'))]
    rw [ih rest (fun hmem => h (List.mem_cons_of_mem c hmem))]

theorem no_space_of_all_digits (cs : List Char)
    (h : cs.all isDigitChar = true) : ' ' ∉ cs := by
  intro hmem
  simp only [List.all_eq_true] at h
  have := h ' ' hmem
  exact absurd this (by decide)

theorem natToChars_no_space (n : Nat) : ' ' ∉ natToChars n :=
  no_space_of_all_digits (natToChars n) (natToChars_all_digits n).2

theorem rankFileCount_no_space :
    ∀ (r : List Char) (acc m : Nat), rankFileCount r acc = some m →
      ' ' ∉ r := by
  intro r
  induction r with
  | nil => intro acc m _ hmem; exact absurd hmem (List.not_mem_nil ' ')
  | cons c rest ih =>
    intro acc m hcnt hmem
    simp only [rankFileCount] at hcnt
    rcases List.mem_cons.1 hmem with rfl | hmem
    · rw [if_neg (by decide), if_neg (by decide)] at hcnt
      exact absurd hcnt (by simp)
    · by_cases hd : isDigitChar c = true
      · rw [if_pos hd] at hcnt
        exact ih (acc + digitVal c) m hcnt hmem
      · rw [if_neg hd] at hcnt
        by_cases hpf : (FEN_TO_PIECE c.toLower).isSome = true
        · rw [if_pos hpf] at hcnt
          exact ih (acc + 1) m hcnt hmem
        · rw [if_neg hpf] at hcnt
          exact absurd hcnt (by simp)

theorem mem_joinOn (sep : Char) :
    ∀ (xss : List (List Char)) (c : Char), c ∈ joinOn sep xss →
      c = sep ∨ ∃ xs ∈ xss, c ∈ xs := by
  intro xss
  induction xss with
  | nil => intro c h; exact absurd h (List.not_mem_nil c)
  | cons xs rest ih =>
    intro c h
    cases rest with
    | nil =>
      right
      exact ⟨xs, List.mem_cons_self xs [], by simpa [joinOn] using h⟩
    | cons ys rest' =>
      simp only [joinOn] at h
      rcases List.mem_append.1 h with h | h
      · exact Or.inr ⟨xs, List.mem_cons_self xs _, h⟩
      · rcases List.mem_cons.1 h with rfl | h
        · exact Or.inl rfl
        · rcases ih c h with h | ⟨zs, hz, hc⟩
          · exact Or.inl h
          · exact Or.inr ⟨zs, List.mem_cons_of_mem xs hz, hc⟩

theorem valid_position_no_space (p : List Char)
    (hv : is_valid_position p = true) : ' ' ∉ p := by
  unfold is_valid_position at hv
  dsimp only at hv
  simp only [Bool.and_eq_true, decide_eq_true_eq, List.all_eq_true] at hv
  intro hmem
  rw [← joinOn_splitOn '/' p] at hmem
  rcases mem_joinOn '/' (splitOn '/' p) ' ' hmem with h | ⟨r, hr, hc⟩
  · exact absurd h (by decide)
  · exact rankFileCount_no_space r 0 8 (hv.2 r hr) hc

theorem castling_to_fen_no_space (r : CastlingRights) :
    ' ' ∉ castling_to_fen r := by
  obtain ⟨a, b, c, d⟩ := r
  cases a <;> cases b <;> cases c <;> cases d <;> decide

theorem to_algebraic_pair (sq : Square) (hb : sq.is_within_bounds = true) :
    sq.to_algebraic
      = [Char.ofNat (sq.file.toNat + 97 - 1), digitChar sq.rank.toNat] := by
  obtain ⟨f, r⟩ := sq
  simp only [Square.is_within_bounds, BOARD_DIMENSIONS, decide_eq_true_eq] at hb
  unfold Square.to_algebraic
  dsimp only
  rw [natToChars_lt_ten r.toNat (by omega)]

theorem to_algebraic_no_space (sq : Square)
    (hb : sq.is_within_bounds = true) : ' ' ∉ sq.to_algebraic := by
  obtain ⟨f, r⟩ := sq
  have hb' := hb
  simp only [Square.is_within_bounds, BOARD_DIMENSIONS, decide_eq_true_eq] at hb'
  rw [to_algebraic_pair ⟨f, r⟩ hb]
  dsimp only
  obtain ⟨h1, h2, h3, h4⟩ := hb'
  intro hmem
  interval_cases f <;> interval_cases r <;> revert hmem <;> decide

theorem to_algebraic_valid (sq : Square)
    (hb : sq.is_within_bounds = true) :
    is_valid_square sq.to_algebraic = true := by
  obtain ⟨f, r⟩ := sq
  simp only [Square.is_within_bounds, BOARD_DIMENSIONS, decide_eq_true_eq] at hb
  obtain ⟨h1, h2, h3, h4⟩ := hb
  unfold Square.to_algebraic
  dsimp only
  interval_cases f <;> interval_cases r <;> decide

theorem to_algebraic_ne_dash (sq : Square)
    (hb : sq.is_within_bounds = true) : sq.to_algebraic ≠ ['-'] := by
  obtain ⟨f, r⟩ := sq
  simp only [Square.is_within_bounds, BOARD_DIMENSIONS, decide_eq_true_eq] at hb
  obtain ⟨h1, h2, h3, h4⟩ := hb
  unfold Square.to_algebraic
  dsimp only
  interval_cases f <;> interval_cases r <;> decide

end Chess
namespace Chess
set_option maxRecDepth 100000

theorem castling_rights_roundtrip (r : CastlingRights) :
    castling_from_fen (castling_to_fen r) = r := by
  obtain ⟨a, b, c, d⟩ := r
  cases a <;> cases b <;> cases c <;> cases d <;> decide

theorem splitOn_to_fen (s : FENState)
    (hp : ' ' ∉ s.position)
    (hep : ' ' ∉ (match s.en_passant_square with
      | some sq => sq.to_algebraic
      | none => ['-'])) :
    splitOn ' ' s.to_fen
      = [s.position,
         (if s.color_to_move = Color.WHITE then ['w'] else ['b']),
         castling_to_fen s.castling_rights,
         (match s.en_passant_square with
          | some sq => sq.to_algebraic
          | none => ['-']),
         natToChars s.half_move_clock, natToChars s.num_turns] := by
  unfold FENState.to_fen
  simp only [List.append_assoc, List.singleton_append, List.cons_append, List.nil_append]
  rw [splitOn_append_sep ' ' s.position _ hp]
  rw [splitOn_append_sep ' ' _ _ (by
    by_cases hc : s.color_to_move = Color.WHITE
    · rw [if_pos hc]; decide
    · rw [if_neg hc]; decide)]
  rw [splitOn_append_sep ' ' _ _ (castling_to_fen_no_space s.castling_rights)]
  rw [splitOn_append_sep ' ' _ _ hep]
  rw [splitOn_append_sep ' ' _ _ (natToChars_no_space s.half_move_clock)]
  rw [splitOn_no_sep ' ' _ (natToChars_no_space s.num_turns)]

/-- Re-parsing a printed `FENState` restores the state, provided the position
field is validator-accepted, the side to move is a real color and any
en-passant square is on the board. -/
theorem from_fen_to_fen (s : FENState)
    (hpos : is_valid_position s.position = true)
    (hcol : s.color_to_move ≠ Color.NONE)
    (hepb : ∀ sq, s.en_passant_square = some sq →
      sq.is_within_bounds = true) :
    FENState.from_fen s.to_fen = Except.ok s := by
  have hepns : ' ' ∉ (match s.en_passant_square with
      | some sq => sq.to_algebraic
      | none => ['-']) := by
    cases hsq : s.en_passant_square with
    | none => decide
    | some sq => exact to_algebraic_no_space sq (hepb sq hsq)
  have hsplit := splitOn_to_fen s (valid_position_no_space s.position hpos) hepns
  have hvfen : is_valid_fen s.to_fen = true := by
    unfold is_valid_fen
    rw [hsplit]
    dsimp only
    simp only [Bool.and_eq_true]
    refine ⟨⟨⟨⟨⟨hpos, ?_⟩, castling_to_fen_valid s.castling_rights⟩, ?_⟩,
      is_valid_move_counter_natToChars s.half_move_clock⟩,
      is_valid_move_counter_natToChars s.num_turns⟩
    · by_cases hc : s.color_to_move = Color.WHITE
      · rw [if_pos hc]; decide
      · rw [if_neg hc]; decide
    · cases hsq : s.en_passant_square with
      | none => decide
      | some sq =>
        unfold is_valid_en_passant
        rw [to_algebraic_valid sq (hepb sq hsq)]
        simp
  unfold FENState.from_fen
  rw [if_neg (fun hcon => hcon hvfen), hsplit]
  dsimp only
  obtain ⟨pos, col, cr, ep, hmc, nt⟩ := s
  dsimp only at hepb hepns ⊢
  cases hsq : ep with
  | none =>
    rw [if_neg (fun hcon => hcon rfl)]
    dsimp only
    rw [pyInt_natToChars, pyInt_natToChars]
    dsimp only
    rw [castling_rights_roundtrip]
    cases col with
    | NONE => exact absurd rfl hcol
    | WHITE => rfl
    | BLACK => rfl
  | some sq =>
    have hb := hepb sq hsq
    rw [if_pos (to_algebraic_ne_dash sq hb)]
    rw [to_algebraic_from_algebraic sq hb]
    dsimp only
    rw [pyInt_natToChars, pyInt_natToChars]
    dsimp only
    rw [castling_rights_roundtrip]
    cases col with
    | NONE => exact absurd rfl hcol
    | WHITE => rfl
    | BLACK => rfl

end Chess
namespace Chess
set_option maxRecDepth 100000

theorem from_uci_four (a1 b1 a2 b2 : Char) (f t : Square)
    (hfa : Square.from_algebraic [a1, b1] = Except.ok f)
    (hta : Square.from_algebraic [a2, b2] = Except.ok t) :
    Move.from_uci [a1, b1, a2, b2] = Except.ok ⟨f, t, none, none, false⟩ := by
  unfold Move.from_uci
  have h1 : ([a1, b1, a2, b2] : List Char).take 2 = [a1, b1] := rfl
  have h2 : (([a1, b1, a2, b2] : List Char).drop 2).take 2 = [a2, b2] := rfl
  rw [h1, hfa]
  dsimp only
  rw [h2, hta]
  dsimp only
  rw [if_neg (by simp)]

theorem from_uci_five (a1 b1 a2 b2 c : Char) (f t : Square) (pt : PieceType)
    (hfa : Square.from_algebraic [a1, b1] = Except.ok f)
    (hta : Square.from_algebraic [a2, b2] = Except.ok t)
    (hc : FEN_TO_PIECE c = some pt) :
    Move.from_uci [a1, b1, a2, b2, c]
      = Except.ok ⟨f, t, some pt, none, false⟩ := by
  unfold Move.from_uci
  have h1 : ([a1, b1, a2, b2, c] : List Char).take 2 = [a1, b1] := rfl
  have h2 : (([a1, b1, a2, b2, c] : List Char).drop 2).take 2 = [a2, b2] := rfl
  rw [h1, hfa]
  dsimp only
  rw [h2, hta]
  dsimp only
  rw [if_pos (by simp)]
  have h3 : ([a1, b1, a2, b2, c] : List Char).getLast? = some c := by
    simp [List.getLast?]
  rw [h3]
  dsimp only
  rw [hc]

theorem move_uci_roundtrip (m : Move)
    (hf : m.from_square.is_within_bounds = true)
    (ht : m.to_square.is_within_bounds = true)
    (hcd : m.castling_direction = none)
    (hep : m.is_en_passant = false)
    (hpt : m.promote_to ≠ some PieceType.EMPTY) :
    ∃ u, Move.to_uci m = Except.ok u ∧ Move.from_uci u = Except.ok m := by
  obtain ⟨fs, ts, pt, cd, iep⟩ := m
  dsimp only at hf ht hcd hep hpt
  subst hcd
  subst hep
  have hfs := to_algebraic_pair fs hf
  have hts := to_algebraic_pair ts ht
  have hfa : Square.from_algebraic
      [Char.ofNat (fs.file.toNat + 97 - 1), digitChar fs.rank.toNat]
        = Except.ok fs := by
    rw [← hfs]
    exact to_algebraic_from_algebraic fs hf
  have hta : Square.from_algebraic
      [Char.ofNat (ts.file.toNat + 97 - 1), digitChar ts.rank.toNat]
        = Except.ok ts := by
    rw [← hts]
    exact to_algebraic_from_algebraic ts ht
  cases pt with
  | none =>
    refine ⟨fs.to_algebraic ++ ts.to_algebraic, rfl, ?_⟩
    rw [hfs, hts]
    exact from_uci_four _ _ _ _ fs ts hfa hta
  | some pt' =>
    have hpne : pt' ≠ PieceType.EMPTY := fun hcon => hpt (by rw [hcon])
    cases pt' with
    | EMPTY => exact absurd rfl hpne
    | PAWN =>
      refine ⟨_, rfl, ?_⟩
      rw [hfs, hts]
      exact from_uci_five _ _ _ _ 'p' fs ts _ hfa hta rfl
    | KNIGHT =>
      refine ⟨_, rfl, ?_⟩
      rw [hfs, hts]
      exact from_uci_five _ _ _ _ 'n' fs ts _ hfa hta rfl
    | BISHOP =>
      refine ⟨_, rfl, ?_⟩
      rw [hfs, hts]
      exact from_uci_five _ _ _ _ 'b' fs ts _ hfa hta rfl
    | ROOK =>
      refine ⟨_, rfl, ?_⟩
      rw [hfs, hts]
      exact from_uci_five _ _ _ _ 'r' fs ts _ hfa hta rfl
    | QUEEN =>
      refine ⟨_, rfl, ?_⟩
      rw [hfs, hts]
      exact from_uci_five _ _ _ _ 'q' fs ts _ hfa hta rfl
    | KING =>
      refine ⟨_, rfl, ?_⟩
      rw [hfs, hts]
      exact from_uci_five _ _ _ _ 'k' fs ts _ hfa hta rfl

theorem moves_uci_roundtrip (ms : List Move)
    (h : ∀ m ∈ ms, m.from_square.is_within_bounds = true
      ∧ m.to_square.is_within_bounds = true ∧ m.castling_direction = none
      ∧ m.is_en_passant = false ∧ m.promote_to ≠ some PieceType.EMPTY) :
    ∃ us, exList (ms.map Move.to_uci) = Except.ok us
      ∧ exList (us.map Move.from_uci) = Except.ok ms := by
  induction ms with
  | nil => exact ⟨[], rfl, rfl⟩
  | cons m tl ih =>
    obtain ⟨h1, h2, h3, h4, h5⟩ := h m (List.mem_cons_self m tl)
    obtain ⟨u, htu, hfu⟩ := move_uci_roundtrip m h1 h2 h3 h4 h5
    obtain ⟨us, hus1, hus2⟩ := ih (fun m' hm' => h m' (List.mem_cons_of_mem m hm'))
    refine ⟨u :: us, ?_, ?_⟩
    · simp only [List.map_cons, exList]
      rw [htu, hus1]
    · simp only [List.map_cons, exList]
      rw [hfu, hus2]

theorem status_tag_roundtrip (st : Status)
    (h : st = Status.WAITING_FOR_PLAYERS ∨ st = Status.IN_PROGRESS
      ∨ st = Status.CHECKMATE ∨ st = Status.STALEMATE) :
    statusOfMemberName (statusNameOf st.value) = some st := by
  rcases h with rfl | rfl | rfl | rfl <;> rfl

theorem players_encode_valid (ps : List (Color × List Char)) :
    (([Color.WHITE, Color.BLACK].filterMap
        (fun c => (playersGet? ps c).map (fun v => (c.nameLower, v)))).all
      (fun kv => decide ((kv.1.map Char.toUpper) ∈ AVAILABLE_COLOR_NAMES)))
      = true := by
  cases hw : playersGet? ps Color.WHITE <;>
    cases hb : playersGet? ps Color.BLACK <;>
      simp [List.filterMap, hw, hb, Color.nameLower, AVAILABLE_COLOR_NAMES]

theorem players_decode (ps : List (Color × List Char)) (c : Color)
    (hc : c = Color.WHITE ∨ c = Color.BLACK) :
    playersGet?
      ([Color.WHITE, Color.BLACK].filterMap
        (fun c1 => (strDictGet?
            ([Color.WHITE, Color.BLACK].filterMap
              (fun c2 => (playersGet? ps c2).map
                (fun v => (c2.nameLower, v))))
            c1.nameLower).map (fun v => (c1, v)))) c
      = playersGet? ps c := by
  cases hw : playersGet? ps Color.WHITE <;>
    cases hb : playersGet? ps Color.BLACK <;>
      rcases hc with rfl | rfl <;>
        simp [List.filterMap, hw, hb, Color.nameLower, playersGet?, strDictGet?]

end Chess
namespace Chess
set_option maxRecDepth 1000000
set_option maxHeartbeats 2000000

/-- C9 (amended): reconstructing a Game from its transport record restores
status, FEN state, move log, position history and registered players whenever
the status is one of the four non-draw members (the two draw tags fail the
member-name lookup), the position field is valid and canonical, the side to
move is a real color, any en-passant square is on the board, and the logged
moves are plain in-bounds moves (no castling or en-passant tags, no EMPTY
promotion marker) — the castling/en-passant tags of logged moves and the
derived board are not preserved by the record format. -/
theorem C9_model_roundtrip (g : Game)
    (hst : g.status = Status.WAITING_FOR_PLAYERS
      ∨ g.status = Status.IN_PROGRESS ∨ g.status = Status.CHECKMATE
      ∨ g.status = Status.STALEMATE)
    (hpos : is_valid_position g.state.position = true)
    (hpc : canonical_position g.state.position = true)
    (hcol : g.state.color_to_move ≠ Color.NONE)
    (hepb : ∀ sq, g.state.en_passant_square = some sq →
      sq.is_within_bounds = true)
    (hmv : ∀ m ∈ g.moves, m.from_square.is_within_bounds = true
      ∧ m.to_square.is_within_bounds = true ∧ m.castling_direction = none
      ∧ m.is_en_passant = false ∧ m.promote_to ≠ some PieceType.EMPTY) :
    ∃ model g', Game.to_model g = Except.ok model
      ∧ Game.from_model model = Except.ok g'
      ∧ g'.status = g.status ∧ g'.state = g.state ∧ g'.moves = g.moves
      ∧ g'.history = g.history
      ∧ playersGet? g'.players Color.WHITE = playersGet? g.players Color.WHITE
      ∧ playersGet? g'.players Color.BLACK
          = playersGet? g.players Color.BLACK := by
  obtain ⟨us, htus, hfus⟩ := moves_uci_roundtrip g.moves hmv
  obtain ⟨b, hbfrom, _⟩ := board_roundtrip g.state.position hpos hpc
  have hepns : ' ' ∉ (match g.state.en_passant_square with
      | some sq => sq.to_algebraic
      | none => ['-']) := by
    cases hsq : g.state.en_passant_square with
    | none => decide
    | some sq => exact to_algebraic_no_space sq (hepb sq hsq)
  have hsplit := splitOn_to_fen g.state
    (valid_position_no_space g.state.position hpos) hepns
  have hstate := from_fen_to_fen g.state hpos hcol hepb
  refine ⟨⟨g.state.to_fen, g.history, us,
      [Color.WHITE, Color.BLACK].filterMap
        (fun c => (playersGet? g.players c).map (fun v => (c.nameLower, v))),
      g.status.value⟩,
    ⟨b, g.moves, g.history, g.state,
      [Color.WHITE, Color.BLACK].filterMap
        (fun c1 => (strDictGet?
            ([Color.WHITE, Color.BLACK].filterMap
              (fun c2 => (playersGet? g.players c2).map
                (fun v => (c2.nameLower, v))))
            c1.nameLower).map (fun v => (c1, v))),
      g.status⟩, ?_, ?_, rfl, rfl, rfl, rfl,
    players_decode g.players Color.WHITE (Or.inl rfl),
    players_decode g.players Color.BLACK (Or.inr rfl)⟩
  · unfold Game.to_model
    rw [htus]
  · unfold Game.from_model
    dsimp only
    rw [status_tag_roundtrip g.status hst]
    dsimp only
    rw [if_neg (fun hcon => hcon (players_encode_valid g.players))]
    rw [hsplit]
    simp only [List.headD_cons]
    rw [hbfrom]
    try dsimp only
    rw [hfus]
    try dsimp only
    rw [hstate]
    try dsimp only
    try rfl

theorem C9_model_roundtrip_witness :
    ∃ model g', Game.to_model startGame = Except.ok model
      ∧ Game.from_model model = Except.ok g'
      ∧ g'.status = startGame.status ∧ g'.state = startGame.state
      ∧ g'.moves = startGame.moves ∧ g'.history = startGame.history
      ∧ playersGet? g'.players Color.WHITE
          = playersGet? startGame.players Color.WHITE
      ∧ playersGet? g'.players Color.BLACK
          = playersGet? startGame.players Color.BLACK :=
  C9_model_roundtrip startGame (Or.inr (Or.inl rfl)) (by decide) (by decide)
    (by decide) (fun sq h => Option.noConfusion h)
    (fun m hm => absurd hm (List.not_mem_nil m))

end Chess
